import Mathlib

set_option maxHeartbeats 1600000

/-!
Verification of the `linter` package of grokify/schemago.

The development shallowly embeds:

* parsed JSON values (`JSON`, `JArr`, `JObj`), with object fields kept in
  document order;
* the linter's `Schema` struct (file `linter/schema.go`, the version with
  boolean-schema support) as the mutual family `Schema`/`SList`/`SMap`/`SOpt`
  plus the flat record `SchemaCore`;
* the custom `Schema.UnmarshalJSON` decoder of that file (`decodeValue`);
* the older `Schema.UnmarshalJSON` decoder also present in the repository
  (no boolean-schema handling, `type` as a plain string field, `properties`
  decoded through the alias) as `decodeValueV1`;
* the lint engine (`Lint`, rules, profiles).  The engine's source file is
  not part of the tree that is being verified, so it is modelled from the
  specification; every such definition carries a doc comment starting with
  `Modelled from the spec:`.

Modelling conventions, matching encoding/json semantics:
* a JSON `null` for a field leaves string fields unchanged and resets
  map/slice/pointer/interface fields to their zero value;
* nested `*Schema` values in maps and slices decode `null` to a nil
  pointer, modelled as `emptySchema`; the `properties` values of the
  current decoder go through `UnmarshalJSON` even for `null` (boolean
  branch succeeds), yielding a boolean schema;
* Go numbers are modelled as integers - no claim depends on number
  semantics;
* each raw-pass field handler (`type`, `properties`, `additionalProperties`)
  is applied per occurrence of its key; Go applies it once to the last
  occurrence.  The handlers fully overwrite the fields they own, so the two
  agree on every object whose keys are distinct, and claims about objects
  with duplicate keys are stated with that caveat.
-/

-- # Parsed JSON values

mutual
inductive JSON where
  | null : JSON
  | bool (b : Bool) : JSON
  | num (n : Int) : JSON
  | str (s : String) : JSON
  | arr (elems : JArr) : JSON
  | obj (fields : JObj) : JSON

inductive JArr where
  | nil : JArr
  | cons (hd : JSON) (tl : JArr) : JArr

inductive JObj where
  | nil : JObj
  | cons (key : String) (val : JSON) (tl : JObj) : JObj
end

def JArr.toList : JArr → List JSON
  | .nil => []
  | .cons hd tl => hd :: tl.toList

/-- Last-occurrence lookup of a key, matching Go maps built from JSON text
where a later duplicate key overwrites an earlier one. -/
def JObj.lookup : JObj → String → Option JSON
  | .nil, _ => none
  | .cons k v tl, key =>
      match tl.lookup key with
      | some r => some r
      | none => if k = key then some v else none

def JObj.hasKey (fs : JObj) (key : String) : Bool :=
  (fs.lookup key).isSome

-- Structural equality of JSON values, used to compare `const` values.
mutual
def jsonBeq : JSON → JSON → Bool
  | .null, .null => true
  | .bool a, .bool b => a == b
  | .num a, .num b => a == b
  | .str a, .str b => a == b
  | .arr a, .arr b => jarrBeq a b
  | .obj a, .obj b => jobjBeq a b
  | _, _ => false

def jarrBeq : JArr → JArr → Bool
  | .nil, .nil => true
  | .cons a as, .cons b bs => jsonBeq a b && jarrBeq as bs
  | _, _ => false

def jobjBeq : JObj → JObj → Bool
  | .nil, .nil => true
  | .cons ka va as, .cons kb vb bs => ka == kb && jsonBeq va vb && jobjBeq as bs
  | _, _ => false
end

-- # The Schema struct (linter/schema.go)

/-- The scalar fields of the Go struct `Schema`.  `typeName` is the Go field
`Type`, `typeList` is `TypeList`, `constVal` is `Const`, `enumVals` is
`Enum`, `schemaId` is `Schema` (the `$schema` keyword), `xAbstractComponent`
is the `x-abstract-component` extension, and the pair
`isBooleanSchema`/`booleanValue` are `IsBooleanSchema`/`BooleanValue`. -/
structure SchemaCore where
  schemaId : String := ""
  id : String := ""
  ref : String := ""
  typeName : String := ""
  typeList : List String := []
  required : List String := []
  additionalProperties : Option Bool := none
  constVal : Option JSON := none
  enumVals : List JSON := []
  title : String := ""
  description : String := ""
  defaultVal : Option JSON := none
  xAbstractComponent : Option Bool := none
  isBooleanSchema : Bool := false
  booleanValue : Bool := false

-- The recursive Go struct `Schema`.  Child schemas: `defs` (`$defs`),
-- `definitions`, `anyOf`, `oneOf`, `allOf`, `properties`,
-- `additionalPropertiesSchema`, `items`.
mutual
inductive Schema where
  | mk (core : SchemaCore) (defs : SMap) (definitions : SMap)
      (anyOf : SList) (oneOf : SList) (allOf : SList)
      (properties : SMap) (additionalPropertiesSchema : SOpt)
      (items : SOpt) : Schema

inductive SList where
  | nil : SList
  | cons (hd : Schema) (tl : SList) : SList

inductive SMap where
  | nil : SMap
  | cons (key : String) (val : Schema) (tl : SMap) : SMap

inductive SOpt where
  | none : SOpt
  | some (val : Schema) : SOpt
end

def Schema.core : Schema → SchemaCore
  | .mk c _ _ _ _ _ _ _ _ => c

def Schema.defs : Schema → SMap
  | .mk _ d _ _ _ _ _ _ _ => d

def Schema.definitions : Schema → SMap
  | .mk _ _ df _ _ _ _ _ _ => df

def Schema.anyOf : Schema → SList
  | .mk _ _ _ ao _ _ _ _ _ => ao

def Schema.oneOf : Schema → SList
  | .mk _ _ _ _ oo _ _ _ _ => oo

def Schema.allOf : Schema → SList
  | .mk _ _ _ _ _ al _ _ _ => al

def Schema.properties : Schema → SMap
  | .mk _ _ _ _ _ _ ps _ _ => ps

def Schema.additionalPropertiesSchema : Schema → SOpt
  | .mk _ _ _ _ _ _ _ aps _ => aps

def Schema.items : Schema → SOpt
  | .mk _ _ _ _ _ _ _ _ it => it

def Schema.ref (s : Schema) : String := s.core.ref

def Schema.typeName (s : Schema) : String := s.core.typeName

def Schema.typeList (s : Schema) : List String := s.core.typeList

def Schema.additionalProperties (s : Schema) : Option Bool :=
  s.core.additionalProperties

def Schema.constVal (s : Schema) : Option JSON := s.core.constVal

def Schema.isBooleanSchema (s : Schema) : Bool := s.core.isBooleanSchema

def Schema.booleanValue (s : Schema) : Bool := s.core.booleanValue

def SList.toList : SList → List Schema
  | .nil => []
  | .cons hd tl => hd :: tl.toList

def SMap.toList : SMap → List (String × Schema)
  | .nil => []
  | .cons k v tl => (k, v) :: tl.toList

def SList.isNil : SList → Bool
  | .nil => true
  | .cons _ _ => false

def SMap.find? : SMap → String → Option Schema
  | .nil, _ => none
  | .cons k v tl, key => if k = key then some v else tl.find? key

/-- The zero value of the Go struct, also standing in for a nil `*Schema`. -/
def emptySchema : Schema := .mk {} .nil .nil .nil .nil .nil .nil .none .none

/-- Result of decoding the literal JSON `true` or `false`. -/
def boolSchema (b : Bool) : Schema :=
  .mk { isBooleanSchema := true, booleanValue := b } .nil .nil .nil .nil .nil
    .nil .none .none

-- # Schema methods (from the source)

/-- `IsObject` returns true if this schema describes an object type:
`s.Type == "object" || len(s.Properties) > 0`. -/
def Schema.IsObject (s : Schema) : Bool :=
  s.typeName == "object" || !(s.properties.toList.isEmpty)

/-- `IsArray`: `s.Type == "array" || s.Items != nil`. -/
def Schema.IsArray (s : Schema) : Bool :=
  s.typeName == "array" ||
    (match s.items with
     | .none => false
     | .some _ => true)

/-- `IsUnion`: `len(s.AnyOf) > 0 || len(s.OneOf) > 0`. -/
def Schema.IsUnion (s : Schema) : Bool :=
  !s.anyOf.isNil || !s.oneOf.isNil

/-- `IsRef`: `s.Ref != ""`. -/
def Schema.IsRef (s : Schema) : Bool :=
  s.ref != ""

/-- `GetUnionVariants` returns the union variants (anyOf takes precedence
over oneOf): `if len(s.AnyOf) > 0 { return s.AnyOf }; return s.OneOf`. -/
def Schema.GetUnionVariants (s : Schema) : SList :=
  if s.anyOf.isNil then s.oneOf else s.anyOf

/-- `HasMixedType`: `len(s.TypeList) > 1`. -/
def Schema.HasMixedType (s : Schema) : Bool :=
  decide (1 < s.typeList.length)

/-- `HasType`: `s.Type != "" || len(s.TypeList) > 0`. -/
def Schema.HasType (s : Schema) : Bool :=
  s.typeName != "" || !s.typeList.isEmpty

-- # Field decoding helpers shared by both decoders

/-- The JSON keys known to the Schema struct.  A decoder switches on the
key of each object field; unknown keys are ignored. -/
inductive FieldKey where
  | schemaKey : FieldKey
  | idKey : FieldKey
  | refKey : FieldKey
  | defsKey : FieldKey
  | definitionsKey : FieldKey
  | typeKey : FieldKey
  | anyOfKey : FieldKey
  | oneOfKey : FieldKey
  | allOfKey : FieldKey
  | propertiesKey : FieldKey
  | requiredKey : FieldKey
  | apKey : FieldKey
  | itemsKey : FieldKey
  | constKey : FieldKey
  | enumKey : FieldKey
  | titleKey : FieldKey
  | descriptionKey : FieldKey
  | defaultKey : FieldKey
  | xacKey : FieldKey
  | otherKey : FieldKey
deriving DecidableEq

def keyOf (k : String) : FieldKey :=
  if k = "$schema" then .schemaKey
  else if k = "$id" then .idKey
  else if k = "$ref" then .refKey
  else if k = "$defs" then .defsKey
  else if k = "definitions" then .definitionsKey
  else if k = "type" then .typeKey
  else if k = "anyOf" then .anyOfKey
  else if k = "oneOf" then .oneOfKey
  else if k = "allOf" then .allOfKey
  else if k = "properties" then .propertiesKey
  else if k = "required" then .requiredKey
  else if k = "additionalProperties" then .apKey
  else if k = "items" then .itemsKey
  else if k = "const" then .constKey
  else if k = "enum" then .enumKey
  else if k = "title" then .titleKey
  else if k = "description" then .descriptionKey
  else if k = "default" then .defaultKey
  else if k = "x-abstract-component" then .xacKey
  else .otherKey

/-- Decode a JSON array as Go `[]string` (`required`): strings decode to
themselves, `null` elements are left at the zero value `""`, anything else
is a type error. -/
def strListOfExc : JArr → Except String (List String)
  | .nil => .ok []
  | .cons (.str s) tl => (strListOfExc tl).map (fun l => s :: l)
  | .cons .null tl => (strListOfExc tl).map (fun l => "" :: l)
  | .cons _ _ => .error "json: cannot unmarshal value into string"

/-- Decode a JSON array as `[]string` where failure is silently ignored
(the `type` handler tries `[]string` and drops the value on error). -/
def stringsOfOpt : JArr → Option (List String)
  | .nil => some []
  | .cons (.str s) tl => (stringsOfOpt tl).map (fun l => s :: l)
  | .cons .null tl => (stringsOfOpt tl).map (fun l => "" :: l)
  | .cons _ _ => none

-- # One field of the current decoder (part_001 UnmarshalJSON)
--
-- `applyNull k` : the field value is JSON `null`.
-- `applyStr k sv` / `applyBool k bv` / `applyNum k n` : scalar values.
-- `applyArr k js xs` : array value `js`, with `xs` the result of decoding
--   `js` as `[]*Schema` (computed by the caller, where recursion is legal).
-- `applyObj k g mp mprops sv` : object value `g`, with `mp` its decoding as
--   a `map[string]*Schema`, `mprops` its decoding as `properties` values,
--   and `sv` its decoding as a single nested `Schema`.

def applyNull : Schema → String → Except String Schema
  | .mk c d df ao oo al ps aps it, k =>
    match keyOf k with
    | .defsKey => .ok (.mk c .nil df ao oo al ps aps it)
    | .definitionsKey => .ok (.mk c d .nil ao oo al ps aps it)
    | .anyOfKey => .ok (.mk c d df .nil oo al ps aps it)
    | .oneOfKey => .ok (.mk c d df ao .nil al ps aps it)
    | .allOfKey => .ok (.mk c d df ao oo .nil ps aps it)
    | .propertiesKey => .ok (.mk c d df ao oo al .nil aps it)
    | .requiredKey =>
        .ok (.mk { c with required := [] } d df ao oo al ps aps it)
    | .itemsKey => .ok (.mk c d df ao oo al ps aps .none)
    | .constKey =>
        .ok (.mk { c with constVal := Option.none } d df ao oo al ps aps it)
    | .enumKey =>
        .ok (.mk { c with enumVals := [] } d df ao oo al ps aps it)
    | .defaultKey =>
        .ok (.mk { c with defaultVal := Option.none } d df ao oo al ps aps it)
    | .xacKey =>
        .ok (.mk { c with xAbstractComponent := Option.none } d df ao oo al ps
          aps it)
    | .apKey =>
        .ok (.mk { c with additionalProperties := some false } d df ao oo al
          ps .none it)
    | .typeKey =>
        .ok (.mk { c with typeName := "", typeList := [] } d df ao oo al ps
          aps it)
    | _ => .ok (.mk c d df ao oo al ps aps it)

def applyStr : Schema → String → String → Except String Schema
  | .mk c d df ao oo al ps aps it, k, sv =>
    match keyOf k with
    | .schemaKey => .ok (.mk { c with schemaId := sv } d df ao oo al ps aps it)
    | .idKey => .ok (.mk { c with id := sv } d df ao oo al ps aps it)
    | .refKey => .ok (.mk { c with ref := sv } d df ao oo al ps aps it)
    | .titleKey => .ok (.mk { c with title := sv } d df ao oo al ps aps it)
    | .descriptionKey =>
        .ok (.mk { c with description := sv } d df ao oo al ps aps it)
    | .typeKey =>
        .ok (.mk { c with typeName := sv, typeList := [] } d df ao oo al ps
          aps it)
    | .constKey =>
        .ok (.mk { c with constVal := some (.str sv) } d df ao oo al ps aps it)
    | .defaultKey =>
        .ok (.mk { c with defaultVal := some (.str sv) } d df ao oo al ps aps
          it)
    | .apKey =>
        .ok (.mk { c with additionalProperties := Option.none } d df ao oo al
          ps .none it)
    | .defsKey | .definitionsKey | .propertiesKey =>
        .error "json: cannot unmarshal string into map of Schema"
    | .anyOfKey | .oneOfKey | .allOfKey =>
        .error "json: cannot unmarshal string into slice of Schema"
    | .requiredKey | .enumKey =>
        .error "json: cannot unmarshal string into slice"
    | .xacKey => .error "json: cannot unmarshal string into bool"
    | .itemsKey => .error "json: cannot unmarshal string into Schema"
    | .otherKey => .ok (.mk c d df ao oo al ps aps it)

def applyBool : Schema → String → Bool → Except String Schema
  | .mk c d df ao oo al ps aps it, k, bv =>
    match keyOf k with
    | .xacKey =>
        .ok (.mk { c with xAbstractComponent := some bv } d df ao oo al ps aps
          it)
    | .apKey =>
        .ok (.mk { c with additionalProperties := some bv } d df ao oo al ps
          .none it)
    | .constKey =>
        .ok (.mk { c with constVal := some (.bool bv) } d df ao oo al ps aps
          it)
    | .defaultKey =>
        .ok (.mk { c with defaultVal := some (.bool bv) } d df ao oo al ps aps
          it)
    | .itemsKey => .ok (.mk c d df ao oo al ps aps (.some (boolSchema bv)))
    | .typeKey =>
        .ok (.mk { c with typeName := "", typeList := [] } d df ao oo al ps
          aps it)
    | .schemaKey | .idKey | .refKey | .titleKey | .descriptionKey =>
        .error "json: cannot unmarshal bool into string"
    | .defsKey | .definitionsKey | .propertiesKey =>
        .error "json: cannot unmarshal bool into map of Schema"
    | .anyOfKey | .oneOfKey | .allOfKey =>
        .error "json: cannot unmarshal bool into slice of Schema"
    | .requiredKey | .enumKey =>
        .error "json: cannot unmarshal bool into slice"
    | .otherKey => .ok (.mk c d df ao oo al ps aps it)

def applyNum : Schema → String → Int → Except String Schema
  | .mk c d df ao oo al ps aps it, k, n =>
    match keyOf k with
    | .constKey =>
        .ok (.mk { c with constVal := some (.num n) } d df ao oo al ps aps it)
    | .defaultKey =>
        .ok (.mk { c with defaultVal := some (.num n) } d df ao oo al ps aps
          it)
    | .typeKey =>
        .ok (.mk { c with typeName := "", typeList := [] } d df ao oo al ps
          aps it)
    | .apKey =>
        .ok (.mk { c with additionalProperties := Option.none } d df ao oo al
          ps .none it)
    | .schemaKey | .idKey | .refKey | .titleKey | .descriptionKey =>
        .error "json: cannot unmarshal number into string"
    | .defsKey | .definitionsKey | .propertiesKey =>
        .error "json: cannot unmarshal number into map of Schema"
    | .anyOfKey | .oneOfKey | .allOfKey =>
        .error "json: cannot unmarshal number into slice of Schema"
    | .requiredKey | .enumKey =>
        .error "json: cannot unmarshal number into slice"
    | .xacKey => .error "json: cannot unmarshal number into bool"
    | .itemsKey => .error "json: cannot unmarshal number into Schema"
    | .otherKey => .ok (.mk c d df ao oo al ps aps it)

def applyArr (s : Schema) (k : String) (js : JArr)
    (xs : Except String SList) : Except String Schema :=
  match s with
  | .mk c d df ao oo al ps aps it =>
    match keyOf k with
    | .anyOfKey =>
        match xs with
        | .ok l => .ok (.mk c d df l oo al ps aps it)
        | .error e => .error e
    | .oneOfKey =>
        match xs with
        | .ok l => .ok (.mk c d df ao l al ps aps it)
        | .error e => .error e
    | .allOfKey =>
        match xs with
        | .ok l => .ok (.mk c d df ao oo l ps aps it)
        | .error e => .error e
    | .requiredKey =>
        match strListOfExc js with
        | .ok l => .ok (.mk { c with required := l } d df ao oo al ps aps it)
        | .error e => .error e
    | .enumKey =>
        .ok (.mk { c with enumVals := js.toList } d df ao oo al ps aps it)
    | .constKey =>
        .ok (.mk { c with constVal := some (.arr js) } d df ao oo al ps aps it)
    | .defaultKey =>
        .ok (.mk { c with defaultVal := some (.arr js) } d df ao oo al ps aps
          it)
    | .typeKey =>
        match stringsOfOpt js with
        | some ts =>
            .ok (.mk { c with
              typeName := if ts.length = 1 then ts.headD "" else "",
              typeList := ts } d df ao oo al ps aps it)
        | Option.none =>
            .ok (.mk { c with typeName := "", typeList := [] } d df ao oo al
              ps aps it)
    | .apKey =>
        .ok (.mk { c with additionalProperties := Option.none } d df ao oo al
          ps .none it)
    | .schemaKey | .idKey | .refKey | .titleKey | .descriptionKey =>
        .error "json: cannot unmarshal array into string"
    | .defsKey | .definitionsKey | .propertiesKey =>
        .error "json: cannot unmarshal array into map of Schema"
    | .xacKey => .error "json: cannot unmarshal array into bool"
    | .itemsKey => .error "json: cannot unmarshal array into Schema"
    | .otherKey => .ok (.mk c d df ao oo al ps aps it)

def applyObj (s : Schema) (k : String) (g : JObj)
    (mp : Except String SMap) (mprops : Except String SMap)
    (sv : Except String Schema) : Except String Schema :=
  match s with
  | .mk c d df ao oo al ps aps it =>
    match keyOf k with
    | .defsKey =>
        match mp with
        | .ok m => .ok (.mk c m df ao oo al ps aps it)
        | .error e => .error e
    | .definitionsKey =>
        match mp with
        | .ok m => .ok (.mk c d m ao oo al ps aps it)
        | .error e => .error e
    | .propertiesKey =>
        match mprops with
        | .ok m => .ok (.mk c d df ao oo al m aps it)
        | .error e => .error e
    | .itemsKey =>
        match sv with
        | .ok t => .ok (.mk c d df ao oo al ps aps (.some t))
        | .error e => .error e
    | .apKey =>
        match sv with
        | .ok t =>
            .ok (.mk { c with additionalProperties := some true } d df ao oo
              al ps (.some t) it)
        | .error _ =>
            .ok (.mk { c with additionalProperties := Option.none } d df ao oo
              al ps .none it)
    | .constKey =>
        .ok (.mk { c with constVal := some (.obj g) } d df ao oo al ps aps it)
    | .defaultKey =>
        .ok (.mk { c with defaultVal := some (.obj g) } d df ao oo al ps aps
          it)
    | .typeKey =>
        .ok (.mk { c with typeName := "", typeList := [] } d df ao oo al ps
          aps it)
    | .schemaKey | .idKey | .refKey | .titleKey | .descriptionKey =>
        .error "json: cannot unmarshal object into string"
    | .anyOfKey | .oneOfKey | .allOfKey =>
        .error "json: cannot unmarshal object into slice of Schema"
    | .requiredKey | .enumKey =>
        .error "json: cannot unmarshal object into slice"
    | .xacKey => .error "json: cannot unmarshal object into bool"
    | .otherKey => .ok (.mk c d df ao oo al ps aps it)

-- # The current decoder (part_001 Schema.UnmarshalJSON)

mutual
def decodeValue : JSON → Except String Schema
  | .bool b => .ok (boolSchema b)
  | .null => .ok (boolSchema false)
  | .num _ => .error "json: cannot unmarshal number into Schema"
  | .str _ => .error "json: cannot unmarshal string into Schema"
  | .arr _ => .error "json: cannot unmarshal array into Schema"
  | .obj fields => decodeFields fields emptySchema

def decodeFields : JObj → Schema → Except String Schema
  | .nil, acc => .ok acc
  | .cons k .null rest, acc => do
      decodeFields rest (← applyNull acc k)
  | .cons k (.bool b) rest, acc => do
      decodeFields rest (← applyBool acc k b)
  | .cons k (.num n) rest, acc => do
      decodeFields rest (← applyNum acc k n)
  | .cons k (.str sv) rest, acc => do
      decodeFields rest (← applyStr acc k sv)
  | .cons k (.arr js) rest, acc => do
      decodeFields rest (← applyArr acc k js (decodeSListPtr js))
  | .cons k (.obj g) rest, acc => do
      decodeFields rest
        (← applyObj acc k g (decodeSMapPtr g) (decodeSMapProps g)
          (decodeFields g emptySchema))

def decodeSListPtr : JArr → Except String SList
  | .nil => .ok .nil
  | .cons .null tl => do
      .ok (.cons emptySchema (← decodeSListPtr tl))
  | .cons (.bool b) tl => do
      .ok (.cons (boolSchema b) (← decodeSListPtr tl))
  | .cons (.num _) _ => .error "json: cannot unmarshal number into Schema"
  | .cons (.str _) _ => .error "json: cannot unmarshal string into Schema"
  | .cons (.arr _) _ => .error "json: cannot unmarshal array into Schema"
  | .cons (.obj g) tl => do
      let s ← decodeFields g emptySchema
      .ok (.cons s (← decodeSListPtr tl))

def decodeSMapPtr : JObj → Except String SMap
  | .nil => .ok .nil
  | .cons k .null tl => do
      .ok (.cons k emptySchema (← decodeSMapPtr tl))
  | .cons k (.bool b) tl => do
      .ok (.cons k (boolSchema b) (← decodeSMapPtr tl))
  | .cons _ (.num _) _ => .error "json: cannot unmarshal number into Schema"
  | .cons _ (.str _) _ => .error "json: cannot unmarshal string into Schema"
  | .cons _ (.arr _) _ => .error "json: cannot unmarshal array into Schema"
  | .cons k (.obj g) tl => do
      let s ← decodeFields g emptySchema
      .ok (.cons k s (← decodeSMapPtr tl))

def decodeSMapProps : JObj → Except String SMap
  | .nil => .ok .nil
  | .cons k .null tl => do
      .ok (.cons k (boolSchema false) (← decodeSMapProps tl))
  | .cons k (.bool b) tl => do
      .ok (.cons k (boolSchema b) (← decodeSMapProps tl))
  | .cons _ (.num _) _ => .error "json: cannot unmarshal number into Schema"
  | .cons _ (.str _) _ => .error "json: cannot unmarshal string into Schema"
  | .cons _ (.arr _) _ => .error "json: cannot unmarshal array into Schema"
  | .cons k (.obj g) tl => do
      let s ← decodeFields g emptySchema
      .ok (.cons k s (← decodeSMapProps tl))
end

-- # The older decoder (linter/schema.go first version of UnmarshalJSON)
--
-- Differences from the current decoder: no boolean-schema branch (a bare
-- JSON boolean is a decode error), `type` is an ordinary string field of
-- the alias (an array or any non-string value is a decode error, and the
-- struct has no `TypeList`), and `properties` is decoded through the alias
-- as `map[string]*Schema` (so `null` values become nil pointers and boolean
-- values are decode errors).

def applyNullV1 : Schema → String → Except String Schema
  | .mk c d df ao oo al ps aps it, k =>
    match keyOf k with
    | .defsKey => .ok (.mk c .nil df ao oo al ps aps it)
    | .definitionsKey => .ok (.mk c d .nil ao oo al ps aps it)
    | .anyOfKey => .ok (.mk c d df .nil oo al ps aps it)
    | .oneOfKey => .ok (.mk c d df ao .nil al ps aps it)
    | .allOfKey => .ok (.mk c d df ao oo .nil ps aps it)
    | .propertiesKey => .ok (.mk c d df ao oo al .nil aps it)
    | .requiredKey =>
        .ok (.mk { c with required := [] } d df ao oo al ps aps it)
    | .itemsKey => .ok (.mk c d df ao oo al ps aps .none)
    | .constKey =>
        .ok (.mk { c with constVal := Option.none } d df ao oo al ps aps it)
    | .enumKey =>
        .ok (.mk { c with enumVals := [] } d df ao oo al ps aps it)
    | .defaultKey =>
        .ok (.mk { c with defaultVal := Option.none } d df ao oo al ps aps it)
    | .xacKey =>
        .ok (.mk { c with xAbstractComponent := Option.none } d df ao oo al ps
          aps it)
    | .apKey =>
        .ok (.mk { c with additionalProperties := some false } d df ao oo al
          ps .none it)
    | _ => .ok (.mk c d df ao oo al ps aps it)

def applyStrV1 : Schema → String → String → Except String Schema
  | .mk c d df ao oo al ps aps it, k, sv =>
    match keyOf k with
    | .schemaKey => .ok (.mk { c with schemaId := sv } d df ao oo al ps aps it)
    | .idKey => .ok (.mk { c with id := sv } d df ao oo al ps aps it)
    | .refKey => .ok (.mk { c with ref := sv } d df ao oo al ps aps it)
    | .titleKey => .ok (.mk { c with title := sv } d df ao oo al ps aps it)
    | .descriptionKey =>
        .ok (.mk { c with description := sv } d df ao oo al ps aps it)
    | .typeKey => .ok (.mk { c with typeName := sv } d df ao oo al ps aps it)
    | .constKey =>
        .ok (.mk { c with constVal := some (.str sv) } d df ao oo al ps aps it)
    | .defaultKey =>
        .ok (.mk { c with defaultVal := some (.str sv) } d df ao oo al ps aps
          it)
    | .apKey =>
        .ok (.mk { c with additionalProperties := Option.none } d df ao oo al
          ps .none it)
    | .defsKey | .definitionsKey | .propertiesKey =>
        .error "json: cannot unmarshal string into map of Schema"
    | .anyOfKey | .oneOfKey | .allOfKey =>
        .error "json: cannot unmarshal string into slice of Schema"
    | .requiredKey | .enumKey =>
        .error "json: cannot unmarshal string into slice"
    | .xacKey => .error "json: cannot unmarshal string into bool"
    | .itemsKey => .error "json: cannot unmarshal string into Schema"
    | .otherKey => .ok (.mk c d df ao oo al ps aps it)

def applyBoolV1 : Schema → String → Bool → Except String Schema
  | .mk c d df ao oo al ps aps it, k, bv =>
    match keyOf k with
    | .xacKey =>
        .ok (.mk { c with xAbstractComponent := some bv } d df ao oo al ps aps
          it)
    | .apKey =>
        .ok (.mk { c with additionalProperties := some bv } d df ao oo al ps
          .none it)
    | .constKey =>
        .ok (.mk { c with constVal := some (.bool bv) } d df ao oo al ps aps
          it)
    | .defaultKey =>
        .ok (.mk { c with defaultVal := some (.bool bv) } d df ao oo al ps aps
          it)
    | .itemsKey => .error "json: cannot unmarshal bool into Schema"
    | .typeKey => .error "json: cannot unmarshal bool into string"
    | .schemaKey | .idKey | .refKey | .titleKey | .descriptionKey =>
        .error "json: cannot unmarshal bool into string"
    | .defsKey | .definitionsKey | .propertiesKey =>
        .error "json: cannot unmarshal bool into map of Schema"
    | .anyOfKey | .oneOfKey | .allOfKey =>
        .error "json: cannot unmarshal bool into slice of Schema"
    | .requiredKey | .enumKey =>
        .error "json: cannot unmarshal bool into slice"
    | .otherKey => .ok (.mk c d df ao oo al ps aps it)

def applyNumV1 : Schema → String → Int → Except String Schema
  | .mk c d df ao oo al ps aps it, k, n =>
    match keyOf k with
    | .constKey =>
        .ok (.mk { c with constVal := some (.num n) } d df ao oo al ps aps it)
    | .defaultKey =>
        .ok (.mk { c with defaultVal := some (.num n) } d df ao oo al ps aps
          it)
    | .typeKey => .error "json: cannot unmarshal number into string"
    | .apKey =>
        .ok (.mk { c with additionalProperties := Option.none } d df ao oo al
          ps .none it)
    | .schemaKey | .idKey | .refKey | .titleKey | .descriptionKey =>
        .error "json: cannot unmarshal number into string"
    | .defsKey | .definitionsKey | .propertiesKey =>
        .error "json: cannot unmarshal number into map of Schema"
    | .anyOfKey | .oneOfKey | .allOfKey =>
        .error "json: cannot unmarshal number into slice of Schema"
    | .requiredKey | .enumKey =>
        .error "json: cannot unmarshal number into slice"
    | .xacKey => .error "json: cannot unmarshal number into bool"
    | .itemsKey => .error "json: cannot unmarshal number into Schema"
    | .otherKey => .ok (.mk c d df ao oo al ps aps it)

def applyArrV1 (s : Schema) (k : String) (js : JArr)
    (xs : Except String SList) : Except String Schema :=
  match s with
  | .mk c d df ao oo al ps aps it =>
    match keyOf k with
    | .anyOfKey =>
        match xs with
        | .ok l => .ok (.mk c d df l oo al ps aps it)
        | .error e => .error e
    | .oneOfKey =>
        match xs with
        | .ok l => .ok (.mk c d df ao l al ps aps it)
        | .error e => .error e
    | .allOfKey =>
        match xs with
        | .ok l => .ok (.mk c d df ao oo l ps aps it)
        | .error e => .error e
    | .requiredKey =>
        match strListOfExc js with
        | .ok l => .ok (.mk { c with required := l } d df ao oo al ps aps it)
        | .error e => .error e
    | .enumKey =>
        .ok (.mk { c with enumVals := js.toList } d df ao oo al ps aps it)
    | .constKey =>
        .ok (.mk { c with constVal := some (.arr js) } d df ao oo al ps aps it)
    | .defaultKey =>
        .ok (.mk { c with defaultVal := some (.arr js) } d df ao oo al ps aps
          it)
    | .typeKey => .error "json: cannot unmarshal array into string"
    | .apKey =>
        .ok (.mk { c with additionalProperties := Option.none } d df ao oo al
          ps .none it)
    | .schemaKey | .idKey | .refKey | .titleKey | .descriptionKey =>
        .error "json: cannot unmarshal array into string"
    | .defsKey | .definitionsKey | .propertiesKey =>
        .error "json: cannot unmarshal array into map of Schema"
    | .xacKey => .error "json: cannot unmarshal array into bool"
    | .itemsKey => .error "json: cannot unmarshal array into Schema"
    | .otherKey => .ok (.mk c d df ao oo al ps aps it)

def applyObjV1 (s : Schema) (k : String) (g : JObj)
    (mp : Except String SMap) (sv : Except String Schema) :
    Except String Schema :=
  match s with
  | .mk c d df ao oo al ps aps it =>
    match keyOf k with
    | .defsKey =>
        match mp with
        | .ok m => .ok (.mk c m df ao oo al ps aps it)
        | .error e => .error e
    | .definitionsKey =>
        match mp with
        | .ok m => .ok (.mk c d m ao oo al ps aps it)
        | .error e => .error e
    | .propertiesKey =>
        match mp with
        | .ok m => .ok (.mk c d df ao oo al m aps it)
        | .error e => .error e
    | .itemsKey =>
        match sv with
        | .ok t => .ok (.mk c d df ao oo al ps aps (.some t))
        | .error e => .error e
    | .apKey =>
        match sv with
        | .ok t =>
            .ok (.mk { c with additionalProperties := some true } d df ao oo
              al ps (.some t) it)
        | .error _ =>
            .ok (.mk { c with additionalProperties := Option.none } d df ao oo
              al ps .none it)
    | .constKey =>
        .ok (.mk { c with constVal := some (.obj g) } d df ao oo al ps aps it)
    | .defaultKey =>
        .ok (.mk { c with defaultVal := some (.obj g) } d df ao oo al ps aps
          it)
    | .typeKey => .error "json: cannot unmarshal object into string"
    | .schemaKey | .idKey | .refKey | .titleKey | .descriptionKey =>
        .error "json: cannot unmarshal object into string"
    | .anyOfKey | .oneOfKey | .allOfKey =>
        .error "json: cannot unmarshal object into slice of Schema"
    | .requiredKey | .enumKey =>
        .error "json: cannot unmarshal object into slice"
    | .xacKey => .error "json: cannot unmarshal object into bool"
    | .otherKey => .ok (.mk c d df ao oo al ps aps it)

mutual
def decodeValueV1 : JSON → Except String Schema
  | .bool _ => .error "json: cannot unmarshal bool into Schema"
  | .null => .ok emptySchema
  | .num _ => .error "json: cannot unmarshal number into Schema"
  | .str _ => .error "json: cannot unmarshal string into Schema"
  | .arr _ => .error "json: cannot unmarshal array into Schema"
  | .obj fields => decodeFieldsV1 fields emptySchema

def decodeFieldsV1 : JObj → Schema → Except String Schema
  | .nil, acc => .ok acc
  | .cons k .null rest, acc => do
      decodeFieldsV1 rest (← applyNullV1 acc k)
  | .cons k (.bool b) rest, acc => do
      decodeFieldsV1 rest (← applyBoolV1 acc k b)
  | .cons k (.num n) rest, acc => do
      decodeFieldsV1 rest (← applyNumV1 acc k n)
  | .cons k (.str sv) rest, acc => do
      decodeFieldsV1 rest (← applyStrV1 acc k sv)
  | .cons k (.arr js) rest, acc => do
      decodeFieldsV1 rest (← applyArrV1 acc k js (decodeSListPtrV1 js))
  | .cons k (.obj g) rest, acc => do
      decodeFieldsV1 rest
        (← applyObjV1 acc k g (decodeSMapPtrV1 g) (decodeFieldsV1 g
          emptySchema))

def decodeSListPtrV1 : JArr → Except String SList
  | .nil => .ok .nil
  | .cons .null tl => do
      .ok (.cons emptySchema (← decodeSListPtrV1 tl))
  | .cons (.bool _) _ => .error "json: cannot unmarshal bool into Schema"
  | .cons (.num _) _ => .error "json: cannot unmarshal number into Schema"
  | .cons (.str _) _ => .error "json: cannot unmarshal string into Schema"
  | .cons (.arr _) _ => .error "json: cannot unmarshal array into Schema"
  | .cons (.obj g) tl => do
      let s ← decodeFieldsV1 g emptySchema
      .ok (.cons s (← decodeSListPtrV1 tl))

def decodeSMapPtrV1 : JObj → Except String SMap
  | .nil => .ok .nil
  | .cons k .null tl => do
      .ok (.cons k emptySchema (← decodeSMapPtrV1 tl))
  | .cons _ (.bool _) _ => .error "json: cannot unmarshal bool into Schema"
  | .cons _ (.num _) _ => .error "json: cannot unmarshal number into Schema"
  | .cons _ (.str _) _ => .error "json: cannot unmarshal string into Schema"
  | .cons _ (.arr _) _ => .error "json: cannot unmarshal array into Schema"
  | .cons k (.obj g) tl => do
      let s ← decodeFieldsV1 g emptySchema
      .ok (.cons k s (← decodeSMapPtrV1 tl))
end

-- # Union classification and the rule engine
--
-- The lint engine's source file is not part of the verified tree (only its
-- tests and callers are), so everything from here to `Lint` is modelled
-- from the specification, using the Schema model above.

/-- Modelled from the spec: severity of an issue (error / warning / info). -/
inductive Severity where
  | error : Severity
  | warning : Severity
  | info : Severity
deriving DecidableEq

/-- Modelled from the spec: one finding - stable code, severity, schema
pointer path and message. -/
structure Issue where
  code : String
  severity : Severity
  path : String
  message : String
deriving DecidableEq

/-- Modelled from the spec: ordered sequence of issues of one lint run. -/
structure Result where
  Issues : List Issue
deriving DecidableEq

def Result.ErrorCount (r : Result) : Nat :=
  (r.Issues.filter (fun i => i.severity = Severity.error)).length

def Result.WarningCount (r : Result) : Nat :=
  (r.Issues.filter (fun i => i.severity = Severity.warning)).length

def Result.HasErrors (r : Result) : Bool :=
  decide (0 < r.ErrorCount)

/-- Modelled from the spec: the two shipped profiles. -/
inductive Profile where
  | default : Profile
  | scale : Profile
deriving DecidableEq

/-- Modelled from the spec: rule activation and thresholds come from the
profile; the union-size warning threshold defaults to 10. -/
structure Config where
  profile : Profile
  largeUnionThreshold : Nat

def DefaultConfig : Config := { profile := .default, largeUnionThreshold := 10 }

def ScaleConfig : Config := { profile := .scale, largeUnionThreshold := 10 }

-- Issue codes (names as used by the tests).
def CodeUnionNoDiscriminator : String := "union-no-discriminator"

def CodeLargeUnion : String := "large-union"

def CodeAdditionalProps : String := "additional-properties"

def CodeCompositionDisallowed : String := "composition-disallowed"

def CodeAdditionalPropsDisallowed : String := "additional-properties-disallowed"

def CodeMissingType : String := "missing-type"

def CodeMixedTypeDisallowed : String := "mixed-type-disallowed"

/-- Modelled from the spec: a union's shape.  `Discriminated` keeps the
discriminator field name (the tag-to-variant map is not needed by any
claim). -/
inductive UnionShape where
  | Nullable : UnionShape
  | Discriminated (field : String) : UnionShape
  | ReferenceOnly : UnionShape
  | Ambiguous : UnionShape
deriving DecidableEq

/-- Modelled from the spec: a variant whose effective type is null. -/
def isNullVariant (v : Schema) : Bool :=
  v.typeName == "null"

/-- The `const` value a variant declares for property `p`, if any. -/
def propertyConst (v : Schema) (p : String) : Option JSON :=
  match v.properties.find? p with
  | Option.none => Option.none
  | Option.some t => t.constVal

/-- All values in the list pairwise different (by JSON equality). -/
def distinctConsts : List JSON → Bool
  | [] => true
  | x :: xs => !(xs.any (fun y => jsonBeq x y)) && distinctConsts xs

/-- Modelled from the spec: `p` is a usable discriminator for the variants -
present in every variant, declared with a `const`, and with pairwise
distinct constants. -/
def isGoodCandidate (vs : List Schema) (p : String) : Bool :=
  vs.all (fun v => (propertyConst v p).isSome) &&
    distinctConsts (vs.filterMap (fun v => propertyConst v p))

/-- Modelled from the spec: candidate discriminator fields, in the property
order of the first variant. -/
def candidateFields (vs : List Schema) : List String :=
  match vs with
  | [] => []
  | v0 :: _ =>
      (v0.properties.toList.map Prod.fst).filter (fun p => isGoodCandidate vs p)

/-- Modelled from the spec: find the shared discriminator field of a list of
union variants.  Detection needs at least two variants.  Every accepted
candidate already has pairwise-distinct constants, so all candidates have
the same (maximal) number of distinct values and the first one is chosen. -/
def detectDiscriminator (vs : List Schema) : Option String :=
  if vs.length < 2 then Option.none
  else (candidateFields vs).head?

/-- Modelled from the spec, section 4.3: (1) two variants with one null
variant is `Nullable`; (2) all variants references is `ReferenceOnly`;
(3) a found discriminator is `Discriminated`; (4) otherwise `Ambiguous`. -/
def classifyUnion (vs : List Schema) : UnionShape :=
  if vs.length = 2 ∧ vs.any isNullVariant then .Nullable
  else if ¬vs.isEmpty ∧ vs.all (fun v => v.IsRef) then .ReferenceOnly
  else
    match detectDiscriminator vs with
    | Option.some f => .Discriminated f
    | Option.none => .Ambiguous

/-- Modelled from the spec: openness of a variant under
`additionalProperties` (JSON Schema default is open). -/
def openness (v : Schema) : Bool :=
  v.additionalProperties.getD true

/-- Modelled from the spec: sibling variants disagree on openness. -/
def apDisagreement (vs : List Schema) : Bool :=
  (vs.map openness).any (fun b => b) && (vs.map openness).any (fun b => !b)

/-- Modelled from the spec: path of a union's composition list. -/
def unionPath (path : String) (s : Schema) : String :=
  if s.anyOf.isNil then path ++ "/oneOf" else path ++ "/anyOf"

/-- Modelled from the spec: union rules at one node.
`union-no-discriminator` (error, both profiles) for an `Ambiguous` union of
two or more variants; `large-union` (warning) above the threshold;
`additional-properties` (warning, default profile only) when variants
disagree on openness.  A union of size one produces no union issues. -/
def unionIssues (cfg : Config) (path : String) (s : Schema) : List Issue :=
  if s.IsUnion then
    let vl := s.GetUnionVariants.toList
    let up := unionPath path s
    (if 2 ≤ vl.length ∧ classifyUnion vl = .Ambiguous then
      [⟨CodeUnionNoDiscriminator, .error, up,
        "union has no usable discriminator"⟩]
    else []) ++
    (if cfg.largeUnionThreshold < vl.length then
      [⟨CodeLargeUnion, .warning, up, "union has many variants"⟩]
    else []) ++
    (if cfg.profile = .default ∧ 2 ≤ vl.length ∧ apDisagreement vl then
      [⟨CodeAdditionalProps, .warning, up,
        "variants disagree on additionalProperties"⟩]
    else [])
  else []

def Schema.hasComposition (s : Schema) : Bool :=
  !s.anyOf.isNil || !s.oneOf.isNil || !s.allOf.isNil

/-- Modelled from the spec: scale-profile rules at one node -
`composition-disallowed`, `additional-properties-disallowed`,
`missing-type`, `mixed-type-disallowed`, all errors. -/
def scaleIssues (cfg : Config) (path : String) (s : Schema) : List Issue :=
  if cfg.profile = .scale then
    (if s.hasComposition then
      [⟨CodeCompositionDisallowed, .error, path,
        "composition keywords are not allowed"⟩]
    else []) ++
    (if s.additionalProperties = Option.some true then
      [⟨CodeAdditionalPropsDisallowed, .error, path,
        "additionalProperties true is not allowed"⟩]
    else []) ++
    (if ¬s.IsRef ∧ ¬s.isBooleanSchema ∧ ¬s.hasComposition ∧ ¬s.HasType then
      [⟨CodeMissingType, .error, path, "schema has no explicit type"⟩]
    else []) ++
    (if s.HasMixedType then
      [⟨CodeMixedTypeDisallowed, .error, path,
        "type lists with several entries are not allowed"⟩]
    else [])
  else []

/-- Modelled from the spec: all rules applied to a single node. -/
def checkNode (cfg : Config) (path : String) (s : Schema) : List Issue :=
  unionIssues cfg path s ++ scaleIssues cfg path s

-- Modelled from the spec: the engine walks the root and every named
-- definition, and the rules recurse through subschemas; `walk` therefore
-- visits every node of the decoded tree (references are not followed, so
-- traversal terminates).
mutual
def walk (cfg : Config) (path : String) : Schema → List Issue
  | .mk c d df ao oo al ps aps it =>
      checkNode cfg path (.mk c d df ao oo al ps aps it) ++
      walkSMap cfg (path ++ "/$defs") d ++
      walkSMap cfg (path ++ "/definitions") df ++
      walkSList cfg (path ++ "/anyOf") 0 ao ++
      walkSList cfg (path ++ "/oneOf") 0 oo ++
      walkSList cfg (path ++ "/allOf") 0 al ++
      walkSMap cfg (path ++ "/properties") ps ++
      walkSOpt cfg (path ++ "/additionalProperties") aps ++
      walkSOpt cfg (path ++ "/items") it

def walkSList (cfg : Config) (path : String) (i : Nat) : SList → List Issue
  | .nil => []
  | .cons s tl =>
      walk cfg (path ++ "/" ++ toString i) s ++ walkSList cfg path (i + 1) tl

def walkSMap (cfg : Config) (path : String) : SMap → List Issue
  | .nil => []
  | .cons k s tl => walk cfg (path ++ "/" ++ k) s ++ walkSMap cfg path tl

def walkSOpt (cfg : Config) (path : String) : SOpt → List Issue
  | .none => []
  | .some s => walk cfg path s
end

/-- Modelled from the spec: `Lint` decodes the document and runs every
active rule over the schema graph; the only run-level failure is a decode
failure. -/
def Lint (cfg : Config) (j : JSON) : Except String Result :=
  match decodeValue j with
  | .ok root => .ok ⟨walk cfg "$" root⟩
  | .error e => .error e

-- # Auxiliary predicates used by the theorems

-- Does the decoded tree contain a non-empty `anyOf` anywhere?
mutual
def containsAnyOf : Schema → Bool
  | .mk _ d df ao oo al ps aps it =>
      !ao.isNil || containsAnyOfM d || containsAnyOfM df ||
        containsAnyOfL ao || containsAnyOfL oo || containsAnyOfL al ||
        containsAnyOfM ps || containsAnyOfO aps || containsAnyOfO it

def containsAnyOfL : SList → Bool
  | .nil => false
  | .cons s tl => containsAnyOf s || containsAnyOfL tl

def containsAnyOfM : SMap → Bool
  | .nil => false
  | .cons _ s tl => containsAnyOf s || containsAnyOfM tl

def containsAnyOfO : SOpt → Bool
  | .none => false
  | .some s => containsAnyOf s
end

/-- Erase the fields on which the two decoders are allowed to differ: the
`additionalProperties` pair and the fields that exist only in the current
struct (the boolean-schema markers). -/
def eraseCore (c : SchemaCore) : SchemaCore :=
  { c with
    additionalProperties := Option.none,
    isBooleanSchema := false,
    booleanValue := false }

mutual
def eraseDiff : Schema → Schema
  | .mk c d df ao oo al ps _ it =>
      .mk (eraseCore c) (eraseDiffM d) (eraseDiffM df) (eraseDiffL ao)
        (eraseDiffL oo) (eraseDiffL al) (eraseDiffM ps) .none (eraseDiffO it)

def eraseDiffL : SList → SList
  | .nil => .nil
  | .cons s tl => .cons (eraseDiff s) (eraseDiffL tl)

def eraseDiffM : SMap → SMap
  | .nil => .nil
  | .cons k s tl => .cons k (eraseDiff s) (eraseDiffM tl)

def eraseDiffO : SOpt → SOpt
  | .none => .none
  | .some s => .some (eraseDiff s)
end

def noDupKeys : JObj → Bool
  | .nil => true
  | .cons k _ tl => !(tl.hasKey k) && noDupKeys tl

-- No duplicate keys, recursively, in any object of a JSON value.
mutual
def noDupJ : JSON → Bool
  | .null => true
  | .bool _ => true
  | .num _ => true
  | .str _ => true
  | .arr js => noDupJA js
  | .obj fs => noDupKeys fs && noDupJO fs

def noDupJA : JArr → Bool
  | .nil => true
  | .cons v tl => noDupJ v && noDupJA tl

def noDupJO : JObj → Bool
  | .nil => true
  | .cons _ v tl => noDupJ v && noDupJO tl
end


-- # Well-formed JSON Schema shape (specification, section 4.1)
--
-- `wfSchema` renders the spec's "valid JSON Schema syntax": a boolean, or
-- an object in which every known keyword carries a value of the expected
-- shape (unknown keywords are unconstrained).

def allStrJ : JArr → Bool
  | .nil => true
  | .cons (.str _) tl => allStrJ tl
  | .cons _ _ => false

/-- Allowed shapes when a known keyword holds a plain string. -/
def strKeyOk (k : String) : Bool :=
  match keyOf k with
  | .defsKey | .definitionsKey | .propertiesKey | .anyOfKey | .oneOfKey
  | .allOfKey | .requiredKey | .enumKey | .xacKey | .itemsKey => false
  | _ => true

def boolKeyOk (k : String) : Bool :=
  match keyOf k with
  | .schemaKey | .idKey | .refKey | .titleKey | .descriptionKey | .defsKey
  | .definitionsKey | .propertiesKey | .anyOfKey | .oneOfKey | .allOfKey
  | .requiredKey | .enumKey | .typeKey => false
  | _ => true

def numKeyOk (k : String) : Bool :=
  match keyOf k with
  | .constKey | .defaultKey | .otherKey => true
  | _ => false

/-- Shape constraint for a keyword holding an array; `lv` is the
well-formedness of the elements as schemas (for the composition lists). -/
def wfArrVal (k : String) (js : JArr) (lv : Bool) : Bool :=
  match keyOf k with
  | .anyOfKey | .oneOfKey | .allOfKey => lv
  | .typeKey | .requiredKey => allStrJ js
  | .enumKey | .constKey | .defaultKey | .otherKey => true
  | _ => false

/-- Shape constraint for a keyword holding an object; `mv` is the
well-formedness of the values as schemas (for the definition containers),
`fv` of the object itself as one schema. -/
def wfObjVal (k : String) (mv : Bool) (fv : Bool) : Bool :=
  match keyOf k with
  | .defsKey | .definitionsKey | .propertiesKey => mv
  | .apKey | .itemsKey => fv
  | .constKey | .defaultKey | .otherKey => true
  | _ => false

mutual
def wfSchema : JSON → Bool
  | .bool _ => true
  | .null => false
  | .num _ => false
  | .str _ => false
  | .arr _ => false
  | .obj fs => wfFields fs

def wfFields : JObj → Bool
  | .nil => true
  | .cons _ .null tl => false && wfFields tl
  | .cons k (.bool _) tl => boolKeyOk k && wfFields tl
  | .cons k (.num _) tl => numKeyOk k && wfFields tl
  | .cons k (.str _) tl => strKeyOk k && wfFields tl
  | .cons k (.arr js) tl => wfArrVal k js (wfListVals js) && wfFields tl
  | .cons k (.obj g) tl => wfObjVal k (wfMapVals g) (wfFields g) && wfFields tl

def wfListVals : JArr → Bool
  | .nil => true
  | .cons v tl => wfSchema v && wfListVals tl

def wfMapVals : JObj → Bool
  | .nil => true
  | .cons _ v tl => wfSchema v && wfMapVals tl
end

-- # Concrete documents used by the scenario parts of the claims

def JObj.ofList : List (String × JSON) → JObj
  | [] => .nil
  | (k, v) :: tl => .cons k v (JObj.ofList tl)

def JArr.ofList : List JSON → JArr
  | [] => .nil
  | v :: tl => .cons v (JArr.ofList tl)

/-- The document of TestLintUnionWithDiscriminator: two anyOf object
variants discriminated by the property "type" with consts dog and cat. -/
def dogCatDoc : JSON :=
  .obj (.ofList [("$defs", .obj (.ofList [("Animal", .obj (.ofList [
    ("anyOf", .arr (.ofList [
      .obj (.ofList [("type", .str "object"),
        ("properties", .obj (.ofList [
          ("type", .obj (.ofList [("const", .str "dog")])),
          ("name", .obj (.ofList [("type", .str "string")]))]))]),
      .obj (.ofList [("type", .str "object"),
        ("properties", .obj (.ofList [
          ("type", .obj (.ofList [("const", .str "cat")])),
          ("name", .obj (.ofList [("type", .str "string")]))]))])]))]))]))])

/-- The document of TestLintNullablePattern. -/
def nullableDoc : JSON :=
  .obj (.ofList [("$defs", .obj (.ofList [("X", .obj (.ofList [
    ("anyOf", .arr (.ofList [
      .obj (.ofList [("type", .str "string")]),
      .obj (.ofList [("type", .str "null")])]))]))]))])

/-- The document of TestLintAllRefs. -/
def allRefsDoc : JSON :=
  .obj (.ofList [("$defs", .obj (.ofList [
    ("Animal", .obj (.ofList [("anyOf", .arr (.ofList [
      .obj (.ofList [("$ref", .str "#/$defs/Dog")]),
      .obj (.ofList [("$ref", .str "#/$defs/Cat")])]))])),
    ("Dog", .obj (.ofList [("type", .str "object"),
      ("properties", .obj (.ofList [
        ("type", .obj (.ofList [("const", .str "dog")]))]))])),
    ("Cat", .obj (.ofList [("type", .str "object"),
      ("properties", .obj (.ofList [
        ("type", .obj (.ofList [("const", .str "cat")]))]))]))]))])

/-- A self-referential document, reachable only through a local `$ref`. -/
def recursiveRefDoc : JSON :=
  .obj (.ofList [("$defs", .obj (.ofList [("Node", .obj (.ofList [
    ("$ref", .str "#/$defs/Node")]))]))])

/-- Syntactically valid JSON that is not JSON Schema shaped. -/
def anyOfNumDoc : JSON := .obj (.cons "anyOf" (.num 5) .nil)

/-- An object variant carrying `kind: const a`, for witnesses. -/
def variantA : Schema :=
  .mk { typeName := "object" } .nil .nil .nil .nil .nil
    (.cons "kind" (.mk { constVal := some (.str "a") } .nil .nil .nil .nil
      .nil .nil .none .none) .nil) .none .none

/-- An object variant carrying `kind: const b`, for witnesses. -/
def variantB : Schema :=
  .mk { typeName := "object" } .nil .nil .nil .nil .nil
    (.cons "kind" (.mk { constVal := some (.str "b") } .nil .nil .nil .nil
      .nil .nil .none .none) .nil) .none .none

/-- A two-variant anyOf union of `variantA` and `variantB`. -/
def unionAB : Schema :=
  .mk {} .nil .nil (.cons variantA (.cons variantB .nil)) .nil .nil .nil
    .none .none

-- # Induction principles for the mutual families (single-type views)

theorem JObj.inductionObj {motive : JObj → Prop} (fs : JObj)
    (nil : motive .nil)
    (cons : ∀ k v tl, motive tl → motive (.cons k v tl)) : motive fs :=
  match fs with
  | .nil => nil
  | .cons k v tl => cons k v tl (JObj.inductionObj tl nil cons)

theorem JArr.inductionArr {motive : JArr → Prop} (js : JArr)
    (nil : motive .nil)
    (cons : ∀ v tl, motive tl → motive (.cons v tl)) : motive js :=
  match js with
  | .nil => nil
  | .cons v tl => cons v tl (JArr.inductionArr tl nil cons)

theorem SList.inductionList {motive : SList → Prop} (l : SList)
    (nil : motive .nil)
    (cons : ∀ s tl, motive tl → motive (.cons s tl)) : motive l :=
  match l with
  | .nil => nil
  | .cons s tl => cons s tl (SList.inductionList tl nil cons)

theorem SMap.inductionMap {motive : SMap → Prop} (m : SMap)
    (nil : motive .nil)
    (cons : ∀ k s tl, motive tl → motive (.cons k s tl)) : motive m :=
  match m with
  | .nil => nil
  | .cons k s tl => cons k s tl (SMap.inductionMap tl nil cons)

-- # Generic Except inversion

theorem exceptBind_ok {α β : Type} {e : Except String α}
    {f : α → Except String β} {b : β} :
    (e >>= f) = .ok b ↔ ∃ a, e = .ok a ∧ f a = .ok b := by
  cases e <;> simp [Bind.bind, Except.bind]

-- # C5: anyOf takes precedence over oneOf

/-- C5: For every schema node, GetUnionVariants returns the anyOf list
whenever anyOf is non-empty, and returns the oneOf list only when anyOf is
empty. -/
theorem c5_get_union_variants (s : Schema) :
    (s.anyOf ≠ .nil → s.GetUnionVariants = s.anyOf) ∧
    (s.anyOf = .nil → s.GetUnionVariants = s.oneOf) := by
  constructor <;> intro h <;>
    cases hs : s.anyOf <;>
    simp [Schema.GetUnionVariants, SList.isNil, hs] <;>
    simp [hs] at h

theorem c5_witness :
    (Schema.mk {} .nil .nil (.cons emptySchema .nil) .nil .nil .nil .none
      .none).GetUnionVariants = .cons emptySchema .nil :=
  (c5_get_union_variants _).1 (by simp [Schema.anyOf])


theorem keyOf_inv (k : String) :
    (keyOf k = .refKey → k = "$ref") ∧
    (keyOf k = .typeKey → k = "type") ∧
    (keyOf k = .apKey → k = "additionalProperties") := by
  unfold keyOf
  by_cases h0 : k = "$schema"
  · simp [h0]
  · rw [if_neg h0]
    by_cases h1 : k = "$id"
    · simp [h1]
    · rw [if_neg h1]
      by_cases h2 : k = "$ref"
      · simp [h2]
      · rw [if_neg h2]
        by_cases h3 : k = "$defs"
        · simp [h3]
        · rw [if_neg h3]
          by_cases h4 : k = "definitions"
          · simp [h4]
          · rw [if_neg h4]
            by_cases h5 : k = "type"
            · simp [h5]
            · rw [if_neg h5]
              by_cases h6 : k = "anyOf"
              · simp [h6]
              · rw [if_neg h6]
                by_cases h7 : k = "oneOf"
                · simp [h7]
                · rw [if_neg h7]
                  by_cases h8 : k = "allOf"
                  · simp [h8]
                  · rw [if_neg h8]
                    by_cases h9 : k = "properties"
                    · simp [h9]
                    · rw [if_neg h9]
                      by_cases h10 : k = "required"
                      · simp [h10]
                      · rw [if_neg h10]
                        by_cases h11 : k = "additionalProperties"
                        · simp [h11]
                        · rw [if_neg h11]
                          by_cases h12 : k = "items"
                          · simp [h12]
                          · rw [if_neg h12]
                            by_cases h13 : k = "const"
                            · simp [h13]
                            · rw [if_neg h13]
                              by_cases h14 : k = "enum"
                              · simp [h14]
                              · rw [if_neg h14]
                                by_cases h15 : k = "title"
                                · simp [h15]
                                · rw [if_neg h15]
                                  by_cases h16 : k = "description"
                                  · simp [h16]
                                  · rw [if_neg h16]
                                    by_cases h17 : k = "default"
                                    · simp [h17]
                                    · rw [if_neg h17]
                                      by_cases h18 : k = "x-abstract-component"
                                      · simp [h18]
                                      · rw [if_neg h18]
                                        simp

-- # Tracking lemmas: fields each handler can touch, per key class

theorem applyNull_track (c : SchemaCore) (d df : SMap) (ao oo al : SList)
    (ps : SMap) (aps it : SOpt) (k : String) (u : Schema)
    (h : applyNull (.mk c d df ao oo al ps aps it) k = .ok u) :
    u.isBooleanSchema = c.isBooleanSchema ∧
    (keyOf k ≠ .refKey → u.ref = c.ref) ∧
    (keyOf k ≠ .typeKey → u.typeName = c.typeName ∧ u.typeList = c.typeList) ∧
    (keyOf k ≠ .apKey →
      u.additionalProperties = c.additionalProperties ∧
      u.additionalPropertiesSchema = aps) := by
  simp only [applyNull] at h
  cases hk : keyOf k <;> rw [hk] at h <;> dsimp only at h <;>
    (try split at h) <;>
    first
      | exact Except.noConfusion h
      | (simp only [Except.ok.injEq] at h; subst h;
         simp_all [Schema.isBooleanSchema, Schema.ref, Schema.typeName,
           Schema.typeList, Schema.additionalProperties,
           Schema.additionalPropertiesSchema, Schema.core])

theorem applyStr_track (c : SchemaCore) (d df : SMap) (ao oo al : SList)
    (ps : SMap) (aps it : SOpt) (k : String) (sv : String) (u : Schema)
    (h : applyStr (.mk c d df ao oo al ps aps it) k sv = .ok u) :
    u.isBooleanSchema = c.isBooleanSchema ∧
    (keyOf k ≠ .refKey → u.ref = c.ref) ∧
    (keyOf k ≠ .typeKey → u.typeName = c.typeName ∧ u.typeList = c.typeList) ∧
    (keyOf k ≠ .apKey →
      u.additionalProperties = c.additionalProperties ∧
      u.additionalPropertiesSchema = aps) := by
  simp only [applyStr] at h
  cases hk : keyOf k <;> rw [hk] at h <;> dsimp only at h <;>
    (try split at h) <;>
    first
      | exact Except.noConfusion h
      | (simp only [Except.ok.injEq] at h; subst h;
         simp_all [Schema.isBooleanSchema, Schema.ref, Schema.typeName,
           Schema.typeList, Schema.additionalProperties,
           Schema.additionalPropertiesSchema, Schema.core])

theorem applyBool_track (c : SchemaCore) (d df : SMap) (ao oo al : SList)
    (ps : SMap) (aps it : SOpt) (k : String) (bv : Bool) (u : Schema)
    (h : applyBool (.mk c d df ao oo al ps aps it) k bv = .ok u) :
    u.isBooleanSchema = c.isBooleanSchema ∧
    (keyOf k ≠ .refKey → u.ref = c.ref) ∧
    (keyOf k ≠ .typeKey → u.typeName = c.typeName ∧ u.typeList = c.typeList) ∧
    (keyOf k ≠ .apKey →
      u.additionalProperties = c.additionalProperties ∧
      u.additionalPropertiesSchema = aps) := by
  simp only [applyBool] at h
  cases hk : keyOf k <;> rw [hk] at h <;> dsimp only at h <;>
    (try split at h) <;>
    first
      | exact Except.noConfusion h
      | (simp only [Except.ok.injEq] at h; subst h;
         simp_all [Schema.isBooleanSchema, Schema.ref, Schema.typeName,
           Schema.typeList, Schema.additionalProperties,
           Schema.additionalPropertiesSchema, Schema.core])

theorem applyNum_track (c : SchemaCore) (d df : SMap) (ao oo al : SList)
    (ps : SMap) (aps it : SOpt) (k : String) (n : Int) (u : Schema)
    (h : applyNum (.mk c d df ao oo al ps aps it) k n = .ok u) :
    u.isBooleanSchema = c.isBooleanSchema ∧
    (keyOf k ≠ .refKey → u.ref = c.ref) ∧
    (keyOf k ≠ .typeKey → u.typeName = c.typeName ∧ u.typeList = c.typeList) ∧
    (keyOf k ≠ .apKey →
      u.additionalProperties = c.additionalProperties ∧
      u.additionalPropertiesSchema = aps) := by
  simp only [applyNum] at h
  cases hk : keyOf k <;> rw [hk] at h <;> dsimp only at h <;>
    (try split at h) <;>
    first
      | exact Except.noConfusion h
      | (simp only [Except.ok.injEq] at h; subst h;
         simp_all [Schema.isBooleanSchema, Schema.ref, Schema.typeName,
           Schema.typeList, Schema.additionalProperties,
           Schema.additionalPropertiesSchema, Schema.core])

theorem applyArr_track (c : SchemaCore) (d df : SMap) (ao oo al : SList)
    (ps : SMap) (aps it : SOpt) (k : String) (js : JArr) (xs : Except String SList) (u : Schema)
    (h : applyArr (.mk c d df ao oo al ps aps it) k js xs = .ok u) :
    u.isBooleanSchema = c.isBooleanSchema ∧
    (keyOf k ≠ .refKey → u.ref = c.ref) ∧
    (keyOf k ≠ .typeKey → u.typeName = c.typeName ∧ u.typeList = c.typeList) ∧
    (keyOf k ≠ .apKey →
      u.additionalProperties = c.additionalProperties ∧
      u.additionalPropertiesSchema = aps) := by
  simp only [applyArr] at h
  cases hk : keyOf k <;> rw [hk] at h <;> dsimp only at h <;>
    (try split at h) <;>
    first
      | exact Except.noConfusion h
      | (simp only [Except.ok.injEq] at h; subst h;
         simp_all [Schema.isBooleanSchema, Schema.ref, Schema.typeName,
           Schema.typeList, Schema.additionalProperties,
           Schema.additionalPropertiesSchema, Schema.core])

theorem applyObj_track (c : SchemaCore) (d df : SMap) (ao oo al : SList)
    (ps : SMap) (aps it : SOpt) (k : String) (g : JObj) (mp mprops : Except String SMap)
    (sv : Except String Schema) (u : Schema)
    (h : applyObj (.mk c d df ao oo al ps aps it) k g mp mprops sv = .ok u) :
    u.isBooleanSchema = c.isBooleanSchema ∧
    (keyOf k ≠ .refKey → u.ref = c.ref) ∧
    (keyOf k ≠ .typeKey → u.typeName = c.typeName ∧ u.typeList = c.typeList) ∧
    (keyOf k ≠ .apKey →
      u.additionalProperties = c.additionalProperties ∧
      u.additionalPropertiesSchema = aps) := by
  simp only [applyObj] at h
  cases hk : keyOf k <;> rw [hk] at h <;> dsimp only at h <;>
    (try split at h) <;>
    first
      | exact Except.noConfusion h
      | (simp only [Except.ok.injEq] at h; subst h;
         simp_all [Schema.isBooleanSchema, Schema.ref, Schema.typeName,
           Schema.typeList, Schema.additionalProperties,
           Schema.additionalPropertiesSchema, Schema.core])

theorem applyNullV1_track (c : SchemaCore) (d df : SMap) (ao oo al : SList)
    (ps : SMap) (aps it : SOpt) (k : String) (u : Schema)
    (h : applyNullV1 (.mk c d df ao oo al ps aps it) k = .ok u) :
    u.isBooleanSchema = c.isBooleanSchema ∧
    (keyOf k ≠ .refKey → u.ref = c.ref) ∧
    (keyOf k ≠ .typeKey → u.typeName = c.typeName ∧ u.typeList = c.typeList) ∧
    (keyOf k ≠ .apKey →
      u.additionalProperties = c.additionalProperties ∧
      u.additionalPropertiesSchema = aps) := by
  simp only [applyNullV1] at h
  cases hk : keyOf k <;> rw [hk] at h <;> dsimp only at h <;>
    (try split at h) <;>
    first
      | exact Except.noConfusion h
      | (simp only [Except.ok.injEq] at h; subst h;
         simp_all [Schema.isBooleanSchema, Schema.ref, Schema.typeName,
           Schema.typeList, Schema.additionalProperties,
           Schema.additionalPropertiesSchema, Schema.core])

theorem applyStrV1_track (c : SchemaCore) (d df : SMap) (ao oo al : SList)
    (ps : SMap) (aps it : SOpt) (k : String) (sv : String) (u : Schema)
    (h : applyStrV1 (.mk c d df ao oo al ps aps it) k sv = .ok u) :
    u.isBooleanSchema = c.isBooleanSchema ∧
    (keyOf k ≠ .refKey → u.ref = c.ref) ∧
    (keyOf k ≠ .typeKey → u.typeName = c.typeName ∧ u.typeList = c.typeList) ∧
    (keyOf k ≠ .apKey →
      u.additionalProperties = c.additionalProperties ∧
      u.additionalPropertiesSchema = aps) := by
  simp only [applyStrV1] at h
  cases hk : keyOf k <;> rw [hk] at h <;> dsimp only at h <;>
    (try split at h) <;>
    first
      | exact Except.noConfusion h
      | (simp only [Except.ok.injEq] at h; subst h;
         simp_all [Schema.isBooleanSchema, Schema.ref, Schema.typeName,
           Schema.typeList, Schema.additionalProperties,
           Schema.additionalPropertiesSchema, Schema.core])

theorem applyBoolV1_track (c : SchemaCore) (d df : SMap) (ao oo al : SList)
    (ps : SMap) (aps it : SOpt) (k : String) (bv : Bool) (u : Schema)
    (h : applyBoolV1 (.mk c d df ao oo al ps aps it) k bv = .ok u) :
    u.isBooleanSchema = c.isBooleanSchema ∧
    (keyOf k ≠ .refKey → u.ref = c.ref) ∧
    (keyOf k ≠ .typeKey → u.typeName = c.typeName ∧ u.typeList = c.typeList) ∧
    (keyOf k ≠ .apKey →
      u.additionalProperties = c.additionalProperties ∧
      u.additionalPropertiesSchema = aps) := by
  simp only [applyBoolV1] at h
  cases hk : keyOf k <;> rw [hk] at h <;> dsimp only at h <;>
    (try split at h) <;>
    first
      | exact Except.noConfusion h
      | (simp only [Except.ok.injEq] at h; subst h;
         simp_all [Schema.isBooleanSchema, Schema.ref, Schema.typeName,
           Schema.typeList, Schema.additionalProperties,
           Schema.additionalPropertiesSchema, Schema.core])

theorem applyNumV1_track (c : SchemaCore) (d df : SMap) (ao oo al : SList)
    (ps : SMap) (aps it : SOpt) (k : String) (n : Int) (u : Schema)
    (h : applyNumV1 (.mk c d df ao oo al ps aps it) k n = .ok u) :
    u.isBooleanSchema = c.isBooleanSchema ∧
    (keyOf k ≠ .refKey → u.ref = c.ref) ∧
    (keyOf k ≠ .typeKey → u.typeName = c.typeName ∧ u.typeList = c.typeList) ∧
    (keyOf k ≠ .apKey →
      u.additionalProperties = c.additionalProperties ∧
      u.additionalPropertiesSchema = aps) := by
  simp only [applyNumV1] at h
  cases hk : keyOf k <;> rw [hk] at h <;> dsimp only at h <;>
    (try split at h) <;>
    first
      | exact Except.noConfusion h
      | (simp only [Except.ok.injEq] at h; subst h;
         simp_all [Schema.isBooleanSchema, Schema.ref, Schema.typeName,
           Schema.typeList, Schema.additionalProperties,
           Schema.additionalPropertiesSchema, Schema.core])

theorem applyArrV1_track (c : SchemaCore) (d df : SMap) (ao oo al : SList)
    (ps : SMap) (aps it : SOpt) (k : String) (js : JArr) (xs : Except String SList) (u : Schema)
    (h : applyArrV1 (.mk c d df ao oo al ps aps it) k js xs = .ok u) :
    u.isBooleanSchema = c.isBooleanSchema ∧
    (keyOf k ≠ .refKey → u.ref = c.ref) ∧
    (keyOf k ≠ .typeKey → u.typeName = c.typeName ∧ u.typeList = c.typeList) ∧
    (keyOf k ≠ .apKey →
      u.additionalProperties = c.additionalProperties ∧
      u.additionalPropertiesSchema = aps) := by
  simp only [applyArrV1] at h
  cases hk : keyOf k <;> rw [hk] at h <;> dsimp only at h <;>
    (try split at h) <;>
    first
      | exact Except.noConfusion h
      | (simp only [Except.ok.injEq] at h; subst h;
         simp_all [Schema.isBooleanSchema, Schema.ref, Schema.typeName,
           Schema.typeList, Schema.additionalProperties,
           Schema.additionalPropertiesSchema, Schema.core])

theorem applyObjV1_track (c : SchemaCore) (d df : SMap) (ao oo al : SList)
    (ps : SMap) (aps it : SOpt) (k : String) (g : JObj) (mp : Except String SMap)
    (sv : Except String Schema) (u : Schema)
    (h : applyObjV1 (.mk c d df ao oo al ps aps it) k g mp sv = .ok u) :
    u.isBooleanSchema = c.isBooleanSchema ∧
    (keyOf k ≠ .refKey → u.ref = c.ref) ∧
    (keyOf k ≠ .typeKey → u.typeName = c.typeName ∧ u.typeList = c.typeList) ∧
    (keyOf k ≠ .apKey →
      u.additionalProperties = c.additionalProperties ∧
      u.additionalPropertiesSchema = aps) := by
  simp only [applyObjV1] at h
  cases hk : keyOf k <;> rw [hk] at h <;> dsimp only at h <;>
    (try split at h) <;>
    first
      | exact Except.noConfusion h
      | (simp only [Except.ok.injEq] at h; subst h;
         simp_all [Schema.isBooleanSchema, Schema.ref, Schema.typeName,
           Schema.typeList, Schema.additionalProperties,
           Schema.additionalPropertiesSchema, Schema.core])

-- # Effect of the handler that owns a tracked field

theorem applyStr_ref (c : SchemaCore) (d df : SMap) (ao oo al : SList)
    (ps : SMap) (aps it : SOpt) (sv : String) (u : Schema)
    (h : applyStr (.mk c d df ao oo al ps aps it) "$ref" sv = .ok u) :
    u.ref = sv := by
  have hk : keyOf "$ref" = FieldKey.refKey := rfl
  simp only [applyStr, hk] at h
  simp only [Except.ok.injEq] at h
  subst h
  rfl

theorem applyStr_type (c : SchemaCore) (d df : SMap) (ao oo al : SList)
    (ps : SMap) (aps it : SOpt) (sv : String) (u : Schema)
    (h : applyStr (.mk c d df ao oo al ps aps it) "type" sv = .ok u) :
    u.typeName = sv ∧ u.typeList = [] := by
  have hk : keyOf "type" = FieldKey.typeKey := rfl
  simp only [applyStr, hk] at h
  simp only [Except.ok.injEq] at h
  subst h
  exact ⟨rfl, rfl⟩

theorem applyArr_type (c : SchemaCore) (d df : SMap) (ao oo al : SList)
    (ps : SMap) (aps it : SOpt) (js : JArr) (xs : Except String SList)
    (u : Schema) (ts : List String)
    (h : applyArr (.mk c d df ao oo al ps aps it) "type" js xs = .ok u)
    (hts : stringsOfOpt js = some ts) :
    u.typeList = ts ∧
    u.typeName = (if ts.length = 1 then ts.headD "" else "") := by
  have hk : keyOf "type" = FieldKey.typeKey := rfl
  simp only [applyArr, hk] at h
  rw [hts] at h
  simp only [Except.ok.injEq] at h
  subst h
  exact ⟨rfl, rfl⟩

theorem applyBool_ap (c : SchemaCore) (d df : SMap) (ao oo al : SList)
    (ps : SMap) (aps it : SOpt) (bv : Bool) (u : Schema)
    (h : applyBool (.mk c d df ao oo al ps aps it) "additionalProperties" bv
      = .ok u) :
    u.additionalProperties = some bv ∧
    u.additionalPropertiesSchema = .none := by
  have hk : keyOf "additionalProperties" = FieldKey.apKey := rfl
  simp only [applyBool, hk] at h
  simp only [Except.ok.injEq] at h
  subst h
  exact ⟨rfl, rfl⟩

theorem applyObj_ap (c : SchemaCore) (d df : SMap) (ao oo al : SList)
    (ps : SMap) (aps it : SOpt) (g : JObj) (mp mprops : Except String SMap)
    (sv : Except String Schema) (u t : Schema)
    (h : applyObj (.mk c d df ao oo al ps aps it) "additionalProperties" g mp
      mprops sv = .ok u) (hsv : sv = .ok t) :
    u.additionalProperties = some true ∧
    u.additionalPropertiesSchema = .some t := by
  have hk : keyOf "additionalProperties" = FieldKey.apKey := rfl
  simp only [applyObj, hk] at h
  rw [hsv] at h
  simp only [Except.ok.injEq] at h
  subst h
  exact ⟨rfl, rfl⟩

-- # One decoding step, combining the shape dispatch

/-- One field of the current decoder: dispatch on the shape of the value.
Definitiona1 repackaging of the arms of `decodeFields`. -/
def applyStep (acc : Schema) (k : String) (v : JSON) : Except String Schema :=
  match v with
  | .null => applyNull acc k
  | .bool b => applyBool acc k b
  | .num n => applyNum acc k n
  | .str sv => applyStr acc k sv
  | .arr js => applyArr acc k js (decodeSListPtr js)
  | .obj g =>
      applyObj acc k g (decodeSMapPtr g) (decodeSMapProps g)
        (decodeFields g emptySchema)

theorem decodeFields_cons (k : String) (v : JSON) (tl : JObj) (acc : Schema) :
    decodeFields (.cons k v tl) acc =
      (applyStep acc k v) >>= fun u => decodeFields tl u := by
  cases v <;> rfl

theorem applyStep_track (acc : Schema) (k : String) (v : JSON) (u : Schema)
    (h : applyStep acc k v = .ok u) :
    u.isBooleanSchema = acc.isBooleanSchema ∧
    (k ≠ "$ref" → u.ref = acc.ref) ∧
    (k ≠ "type" → u.typeName = acc.typeName ∧ u.typeList = acc.typeList) ∧
    (k ≠ "additionalProperties" →
      u.additionalProperties = acc.additionalProperties ∧
      u.additionalPropertiesSchema = acc.additionalPropertiesSchema) := by
  rcases acc with ⟨c, d, df, ao, oo, al, ps, aps, it⟩
  cases v
  case null =>
    simp only [applyStep] at h
    have tr := applyNull_track c d df ao oo al ps aps it k u h
    refine ⟨?_, fun hne => ?_, fun hne => ?_, fun hne => ?_⟩
    · simpa [Schema.isBooleanSchema, Schema.core] using tr.1
    · simpa [Schema.ref, Schema.core] using
        tr.2.1 (fun hkk => hne ((keyOf_inv k).1 hkk))
    · simpa [Schema.typeName, Schema.typeList, Schema.core] using
        tr.2.2.1 (fun hkk => hne ((keyOf_inv k).2.1 hkk))
    · simpa [Schema.additionalProperties, Schema.additionalPropertiesSchema,
        Schema.core] using tr.2.2.2 (fun hkk => hne ((keyOf_inv k).2.2 hkk))
  case bool b =>
    simp only [applyStep] at h
    have tr := applyBool_track c d df ao oo al ps aps it k b u h
    refine ⟨?_, fun hne => ?_, fun hne => ?_, fun hne => ?_⟩
    · simpa [Schema.isBooleanSchema, Schema.core] using tr.1
    · simpa [Schema.ref, Schema.core] using
        tr.2.1 (fun hkk => hne ((keyOf_inv k).1 hkk))
    · simpa [Schema.typeName, Schema.typeList, Schema.core] using
        tr.2.2.1 (fun hkk => hne ((keyOf_inv k).2.1 hkk))
    · simpa [Schema.additionalProperties, Schema.additionalPropertiesSchema,
        Schema.core] using tr.2.2.2 (fun hkk => hne ((keyOf_inv k).2.2 hkk))
  case num n =>
    simp only [applyStep] at h
    have tr := applyNum_track c d df ao oo al ps aps it k n u h
    refine ⟨?_, fun hne => ?_, fun hne => ?_, fun hne => ?_⟩
    · simpa [Schema.isBooleanSchema, Schema.core] using tr.1
    · simpa [Schema.ref, Schema.core] using
        tr.2.1 (fun hkk => hne ((keyOf_inv k).1 hkk))
    · simpa [Schema.typeName, Schema.typeList, Schema.core] using
        tr.2.2.1 (fun hkk => hne ((keyOf_inv k).2.1 hkk))
    · simpa [Schema.additionalProperties, Schema.additionalPropertiesSchema,
        Schema.core] using tr.2.2.2 (fun hkk => hne ((keyOf_inv k).2.2 hkk))
  case str sv =>
    simp only [applyStep] at h
    have tr := applyStr_track c d df ao oo al ps aps it k sv u h
    refine ⟨?_, fun hne => ?_, fun hne => ?_, fun hne => ?_⟩
    · simpa [Schema.isBooleanSchema, Schema.core] using tr.1
    · simpa [Schema.ref, Schema.core] using
        tr.2.1 (fun hkk => hne ((keyOf_inv k).1 hkk))
    · simpa [Schema.typeName, Schema.typeList, Schema.core] using
        tr.2.2.1 (fun hkk => hne ((keyOf_inv k).2.1 hkk))
    · simpa [Schema.additionalProperties, Schema.additionalPropertiesSchema,
        Schema.core] using tr.2.2.2 (fun hkk => hne ((keyOf_inv k).2.2 hkk))
  case arr js =>
    simp only [applyStep] at h
    have tr := applyArr_track c d df ao oo al ps aps it k js (decodeSListPtr js) u h
    refine ⟨?_, fun hne => ?_, fun hne => ?_, fun hne => ?_⟩
    · simpa [Schema.isBooleanSchema, Schema.core] using tr.1
    · simpa [Schema.ref, Schema.core] using
        tr.2.1 (fun hkk => hne ((keyOf_inv k).1 hkk))
    · simpa [Schema.typeName, Schema.typeList, Schema.core] using
        tr.2.2.1 (fun hkk => hne ((keyOf_inv k).2.1 hkk))
    · simpa [Schema.additionalProperties, Schema.additionalPropertiesSchema,
        Schema.core] using tr.2.2.2 (fun hkk => hne ((keyOf_inv k).2.2 hkk))
  case obj g =>
    simp only [applyStep] at h
    have tr := applyObj_track c d df ao oo al ps aps it k g (decodeSMapPtr g) (decodeSMapProps g) (decodeFields g emptySchema) u h
    refine ⟨?_, fun hne => ?_, fun hne => ?_, fun hne => ?_⟩
    · simpa [Schema.isBooleanSchema, Schema.core] using tr.1
    · simpa [Schema.ref, Schema.core] using
        tr.2.1 (fun hkk => hne ((keyOf_inv k).1 hkk))
    · simpa [Schema.typeName, Schema.typeList, Schema.core] using
        tr.2.2.1 (fun hkk => hne ((keyOf_inv k).2.1 hkk))
    · simpa [Schema.additionalProperties, Schema.additionalPropertiesSchema,
        Schema.core] using tr.2.2.2 (fun hkk => hne ((keyOf_inv k).2.2 hkk))

-- # Last-occurrence lookup inversions and the tracked fold

theorem lookup_cons_none {k key : String} {v : JSON} {tl : JObj}
    (h : (JObj.cons k v tl).lookup key = none) :
    tl.lookup key = none ∧ k ≠ key := by
  simp only [JObj.lookup] at h
  cases hres : tl.lookup key <;> rw [hres] at h <;> dsimp only at h
  · by_cases hkk : k = key
    · rw [if_pos hkk] at h
      cases h
    · exact ⟨rfl, hkk⟩
  · exact Option.noConfusion h

theorem lookup_cons_some {k key : String} {v w : JSON} {tl : JObj}
    (h : (JObj.cons k v tl).lookup key = some w) :
    tl.lookup key = some w ∨ (tl.lookup key = none ∧ k = key ∧ v = w) := by
  simp only [JObj.lookup] at h
  cases hres : tl.lookup key <;> rw [hres] at h <;> dsimp only at h
  · by_cases hkk : k = key
    · rw [if_pos hkk] at h
      exact Or.inr ⟨rfl, hkk, Option.some.inj h⟩
    · rw [if_neg hkk] at h
      exact Option.noConfusion h
  · exact Or.inl (by rw [← h])

theorem applyStep_ref (acc : Schema) (r : String) (u : Schema)
    (h : applyStep acc "$ref" (.str r) = .ok u) : u.ref = r := by
  rcases acc with ⟨c, d, df, ao, oo, al, ps, aps, it⟩
  exact applyStr_ref c d df ao oo al ps aps it r u h

theorem applyStep_type_str (acc : Schema) (t : String) (u : Schema)
    (h : applyStep acc "type" (.str t) = .ok u) :
    u.typeName = t ∧ u.typeList = [] := by
  rcases acc with ⟨c, d, df, ao, oo, al, ps, aps, it⟩
  exact applyStr_type c d df ao oo al ps aps it t u h

theorem applyStep_type_arr (acc : Schema) (js : JArr) (ts : List String)
    (u : Schema) (h : applyStep acc "type" (.arr js) = .ok u)
    (hts : stringsOfOpt js = some ts) :
    u.typeList = ts ∧
    u.typeName = (if ts.length = 1 then ts.headD "" else "") := by
  rcases acc with ⟨c, d, df, ao, oo, al, ps, aps, it⟩
  exact applyArr_type c d df ao oo al ps aps it js (decodeSListPtr js) u ts h
    hts

theorem applyStep_ap_bool (acc : Schema) (bv : Bool) (u : Schema)
    (h : applyStep acc "additionalProperties" (.bool bv) = .ok u) :
    u.additionalProperties = some bv ∧
    u.additionalPropertiesSchema = .none := by
  rcases acc with ⟨c, d, df, ao, oo, al, ps, aps, it⟩
  exact applyBool_ap c d df ao oo al ps aps it bv u h

theorem applyStep_ap_obj (acc : Schema) (g : JObj) (t u : Schema)
    (h : applyStep acc "additionalProperties" (.obj g) = .ok u)
    (ht : decodeFields g emptySchema = .ok t) :
    u.additionalProperties = some true ∧
    u.additionalPropertiesSchema = .some t := by
  rcases acc with ⟨c, d, df, ao, oo, al, ps, aps, it⟩
  exact applyObj_ap c d df ao oo al ps aps it g (decodeSMapPtr g)
    (decodeSMapProps g) (decodeFields g emptySchema) u t h ht

theorem decodeFields_track (fs : JObj) : ∀ acc s,
    decodeFields fs acc = .ok s →
    s.isBooleanSchema = acc.isBooleanSchema ∧
    ((fs.lookup "$ref" = none → s.ref = acc.ref) ∧
     (∀ r, fs.lookup "$ref" = some (.str r) → s.ref = r)) ∧
    ((fs.lookup "type" = none →
        s.typeName = acc.typeName ∧ s.typeList = acc.typeList) ∧
     (∀ t, fs.lookup "type" = some (.str t) →
        s.typeName = t ∧ s.typeList = []) ∧
     (∀ js ts, fs.lookup "type" = some (.arr js) → stringsOfOpt js = some ts →
        s.typeList = ts ∧
        s.typeName = (if ts.length = 1 then ts.headD "" else ""))) ∧
    ((fs.lookup "additionalProperties" = none →
        s.additionalProperties = acc.additionalProperties ∧
        s.additionalPropertiesSchema = acc.additionalPropertiesSchema) ∧
     (∀ b, fs.lookup "additionalProperties" = some (.bool b) →
        s.additionalProperties = some b ∧
        s.additionalPropertiesSchema = .none) ∧
     (∀ g t, fs.lookup "additionalProperties" = some (.obj g) →
        decodeFields g emptySchema = .ok t →
        s.additionalProperties = some true ∧
        s.additionalPropertiesSchema = .some t)) := by
  induction fs using JObj.inductionObj with
  | nil =>
      intro acc s h
      simp only [decodeFields] at h
      rw [← Except.ok.inj h]
      exact ⟨rfl,
        ⟨fun _ => rfl, fun r hr => absurd hr (by simp [JObj.lookup])⟩,
        ⟨fun _ => ⟨rfl, rfl⟩, fun t ht => absurd ht (by simp [JObj.lookup]),
         fun js ts hj _ => absurd hj (by simp [JObj.lookup])⟩,
        ⟨fun _ => ⟨rfl, rfl⟩, fun b hb => absurd hb (by simp [JObj.lookup]),
         fun g t hg _ => absurd hg (by simp [JObj.lookup])⟩⟩
  | cons k v tl ih =>
      intro acc s h
      rw [decodeFields_cons, exceptBind_ok] at h
      obtain ⟨acc', heq, hrest⟩ := h
      obtain ⟨tib, tref, tty, tap⟩ := applyStep_track acc k v acc' heq
      obtain ⟨iib, ⟨irefN, irefS⟩, ⟨ityN, ityS, ityA⟩, ⟨iapN, iapB, iapO⟩⟩ :=
        ih acc' s hrest
      refine ⟨iib.trans tib, ⟨?_, ?_⟩, ⟨?_, ?_, ?_⟩, ⟨?_, ?_, ?_⟩⟩
      · intro hlk
        obtain ⟨hres, hkk⟩ := lookup_cons_none hlk
        rw [irefN hres]
        exact tref hkk
      · intro r hlk
        rcases lookup_cons_some hlk with hres | ⟨hres, hkk, hv⟩
        · exact irefS r hres
        · subst hkk
          subst hv
          rw [irefN hres]
          exact applyStep_ref acc r acc' heq
      · intro hlk
        obtain ⟨hres, hkk⟩ := lookup_cons_none hlk
        obtain ⟨p1, p2⟩ := ityN hres
        obtain ⟨q1, q2⟩ := tty hkk
        exact ⟨p1.trans q1, p2.trans q2⟩
      · intro t hlk
        rcases lookup_cons_some hlk with hres | ⟨hres, hkk, hv⟩
        · exact ityS t hres
        · subst hkk
          subst hv
          obtain ⟨q1, q2⟩ := applyStep_type_str acc t acc' heq
          obtain ⟨p1, p2⟩ := ityN hres
          exact ⟨p1.trans q1, p2.trans q2⟩
      · intro js ts hlk hts
        rcases lookup_cons_some hlk with hres | ⟨hres, hkk, hv⟩
        · exact ityA js ts hres hts
        · subst hkk
          subst hv
          obtain ⟨q1, q2⟩ := applyStep_type_arr acc js ts acc' heq hts
          obtain ⟨p1, p2⟩ := ityN hres
          exact ⟨p2.trans q1, p1.trans q2⟩
      · intro hlk
        obtain ⟨hres, hkk⟩ := lookup_cons_none hlk
        obtain ⟨p1, p2⟩ := iapN hres
        obtain ⟨q1, q2⟩ := tap hkk
        exact ⟨p1.trans q1, p2.trans q2⟩
      · intro b hlk
        rcases lookup_cons_some hlk with hres | ⟨hres, hkk, hv⟩
        · exact iapB b hres
        · subst hkk
          subst hv
          obtain ⟨q1, q2⟩ := applyStep_ap_bool acc b acc' heq
          obtain ⟨p1, p2⟩ := iapN hres
          exact ⟨p1.trans q1, p2.trans q2⟩
      · intro g t hlk ht
        rcases lookup_cons_some hlk with hres | ⟨hres, hkk, hv⟩
        · exact iapO g t hres ht
        · subst hkk
          subst hv
          obtain ⟨q1, q2⟩ := applyStep_ap_obj acc g t acc' heq ht
          obtain ⟨p1, p2⟩ := iapN hres
          exact ⟨p1.trans q1, p2.trans q2⟩

-- # C6: boolean-literal schemas

/-- C6: Decoding the JSON bytes `true` or `false` as a Schema succeeds and
produces a node marked as a boolean-literal schema carrying that boolean
value; every object-schema node decodes with the boolean-schema marker
false. -/
theorem c6_boolean_literal_schemas :
    (∀ b : Bool, decodeValue (.bool b) = .ok (boolSchema b) ∧
       (boolSchema b).isBooleanSchema = true ∧
       (boolSchema b).booleanValue = b) ∧
    (∀ (fs : JObj) (s : Schema), decodeValue (.obj fs) = .ok s →
       s.isBooleanSchema = false) := by
  constructor
  · intro b
    exact ⟨rfl, rfl, rfl⟩
  · intro fs s h
    have hb := (decodeFields_track fs emptySchema s h).1
    rw [hb]
    rfl

theorem c6_witness :
    decodeValue (.obj .nil) = .ok emptySchema ∧
    emptySchema.isBooleanSchema = false :=
  ⟨rfl, c6_boolean_literal_schemas.2 .nil emptySchema rfl⟩

-- # C8: the type field

theorem stringsOfOpt_ofList (ts : List String) :
    stringsOfOpt (JArr.ofList (ts.map JSON.str)) = some ts := by
  induction ts with
  | nil => rfl
  | cons a as ihh => simp [JArr.ofList, stringsOfOpt, ihh]

/-- C8: a `type` given as a JSON string is recorded as the single declared
type name; a `type` given as an array of strings is recorded as the ordered
type list, a one-element array additionally as the single type name; and
the node counts as mixed-type exactly when the recorded list has more than
one entry. -/
theorem c8_type_field (fs : JObj) (s : Schema)
    (h : decodeValue (.obj fs) = .ok s) :
    (∀ t, fs.lookup "type" = some (.str t) → s.typeName = t) ∧
    (∀ ts, fs.lookup "type" = some (.arr (JArr.ofList (ts.map JSON.str))) →
       s.typeList = ts ∧ (ts.length = 1 → s.typeName = ts.headD "") ∧
       (s.HasMixedType = true ↔ 1 < ts.length)) := by
  obtain ⟨_, _, ⟨_, tyS, tyA⟩, _⟩ := decodeFields_track fs emptySchema s h
  constructor
  · intro t ht
    exact (tyS t ht).1
  · intro ts hts
    have hso := stringsOfOpt_ofList ts
    obtain ⟨p1, p2⟩ := tyA _ ts hts hso
    refine ⟨p1, fun hone => ?_, ?_⟩
    · rw [p2, if_pos hone]
    · rw [Schema.HasMixedType, p1]
      simp

theorem c8_witness :
    decodeValue (.obj (.cons "type"
        (.arr (.cons (.str "string") (.cons (.str "number") .nil))) .nil)) =
      .ok (.mk { typeList := ["string", "number"] } .nil .nil .nil .nil .nil
        .nil .none .none) ∧
    (Schema.mk { typeList := ["string", "number"] } .nil .nil .nil .nil .nil
        .nil .none .none).typeList = ["string", "number"] ∧
    (Schema.mk { typeList := ["string", "number"] } .nil .nil .nil .nil .nil
        .nil .none .none).HasMixedType = true :=
  ⟨rfl,
   ((c8_type_field (JObj.cons "type"
        (.arr (.cons (.str "string") (.cons (.str "number") .nil))) .nil)
      (Schema.mk { typeList := ["string", "number"] } .nil .nil .nil .nil .nil
        .nil .none .none) rfl).2 ["string", "number"] rfl).1,
   (((c8_type_field (JObj.cons "type"
        (.arr (.cons (.str "string") (.cons (.str "number") .nil))) .nil)
      (Schema.mk { typeList := ["string", "number"] } .nil .nil .nil .nil .nil
        .nil .none .none) rfl).2
        ["string", "number"] rfl).2.2).2 (by decide)⟩

-- # C9: additionalProperties as bool or nested schema

/-- C9: an `additionalProperties` field that is a nested schema is stored
in the dedicated schema slot and the boolean flag is set to true; a bare
boolean only sets the flag and leaves the schema slot empty. -/
theorem c9_additional_properties (fs : JObj) (s : Schema)
    (h : decodeValue (.obj fs) = .ok s) :
    (∀ b, fs.lookup "additionalProperties" = some (.bool b) →
       s.additionalProperties = some b ∧
       s.additionalPropertiesSchema = .none) ∧
    (∀ g t, fs.lookup "additionalProperties" = some (.obj g) →
       decodeValue (.obj g) = .ok t →
       s.additionalProperties = some true ∧
       s.additionalPropertiesSchema = .some t) := by
  obtain ⟨_, _, _, ⟨_, apB, apO⟩⟩ := decodeFields_track fs emptySchema s h
  exact ⟨apB, fun g t hg ht => apO g t hg ht⟩

theorem c9_witness :
    decodeValue (.obj (.cons "additionalProperties" (.obj .nil) .nil)) =
      .ok (.mk { additionalProperties := some true } .nil .nil .nil .nil .nil
        .nil (.some emptySchema) .none) ∧
    (Schema.mk { additionalProperties := some true } .nil .nil .nil .nil .nil
        .nil (.some emptySchema) .none).additionalProperties = some true ∧
    (Schema.mk { additionalProperties := some true } .nil .nil .nil .nil .nil
        .nil (.some emptySchema)
        .none).additionalPropertiesSchema = .some emptySchema :=
  ⟨rfl,
   ((c9_additional_properties (JObj.cons "additionalProperties" (.obj .nil) .nil)
      (Schema.mk { additionalProperties := some true } .nil .nil .nil .nil .nil
        .nil (.some emptySchema) .none) rfl).2 .nil emptySchema rfl rfl).1,
   ((c9_additional_properties (JObj.cons "additionalProperties" (.obj .nil) .nil)
      (Schema.mk { additionalProperties := some true } .nil .nil .nil .nil .nil
        .nil (.some emptySchema) .none) rfl).2 .nil emptySchema rfl rfl).2⟩

-- # C2: the nullable pattern

/-- C2: a two-variant union with a null-typed variant classifies as
Nullable, in both variant orders; the nullable scenario document lints
cleanly under the default profile. -/
theorem c2_nullable_pattern :
    (∀ a b : Schema, (isNullVariant a || isNullVariant b) = true →
       classifyUnion [a, b] = .Nullable ∧
       classifyUnion [a, b] = classifyUnion [b, a]) ∧
    Lint DefaultConfig nullableDoc = .ok ⟨[]⟩ := by
  constructor
  · intro a b hab
    have h1 : classifyUnion [a, b] = .Nullable := by
      unfold classifyUnion
      rw [if_pos ⟨rfl, by simpa using hab⟩]
    have hab2 : (isNullVariant b || isNullVariant a) = true := by
      rwa [Bool.or_comm] at hab
    have h2 : classifyUnion [b, a] = .Nullable := by
      unfold classifyUnion
      rw [if_pos ⟨rfl, by simpa using hab2⟩]
    exact ⟨h1, h1.trans h2.symm⟩
  · rfl

theorem c2_witness :
    (isNullVariant (Schema.mk { typeName := "string" } .nil .nil .nil .nil
        .nil .nil .none .none) ||
      isNullVariant (Schema.mk { typeName := "null" } .nil .nil .nil .nil
        .nil .nil .none .none)) = true ∧
    classifyUnion [Schema.mk { typeName := "string" } .nil .nil .nil .nil
        .nil .nil .none .none,
      Schema.mk { typeName := "null" } .nil .nil .nil .nil .nil .nil .none
        .none] = .Nullable :=
  ⟨rfl,
   (c2_nullable_pattern.1
     (Schema.mk { typeName := "string" } .nil .nil .nil .nil .nil .nil .none
       .none)
     (Schema.mk { typeName := "null" } .nil .nil .nil .nil .nil .nil .none
       .none) rfl).1⟩

-- # Membership facts about the rule issues

theorem unionIssues_noDisc (cfg : Config) (path : String) (s : Schema)
    (i : Issue) (hi : i ∈ unionIssues cfg path s)
    (hc : i.code = CodeUnionNoDiscriminator) :
    2 ≤ s.GetUnionVariants.toList.length ∧
    classifyUnion s.GetUnionVariants.toList = .Ambiguous := by
  simp only [unionIssues] at hi
  split at hi
  · rw [List.mem_append, List.mem_append] at hi
    rcases hi with (hi | hi) | hi
    · split at hi
      · next hcond =>
          exact hcond
      · simp at hi
    · split at hi
      · simp at hi
        subst hi
        simp [CodeLargeUnion, CodeUnionNoDiscriminator] at hc
      · simp at hi
    · split at hi
      · simp at hi
        subst hi
        simp [CodeAdditionalProps, CodeUnionNoDiscriminator] at hc
      · simp at hi
  · simp at hi

theorem scaleIssues_codes (cfg : Config) (path : String) (s : Schema)
    (i : Issue) (hi : i ∈ scaleIssues cfg path s) :
    i.code = CodeCompositionDisallowed ∨
    i.code = CodeAdditionalPropsDisallowed ∨
    i.code = CodeMissingType ∨ i.code = CodeMixedTypeDisallowed := by
  simp only [scaleIssues] at hi
  split at hi
  · rw [List.mem_append, List.mem_append, List.mem_append] at hi
    rcases hi with ((hi | hi) | hi) | hi <;>
      (split at hi <;> simp_all)
  · simp at hi

theorem unionIssues_codes (cfg : Config) (path : String) (s : Schema)
    (i : Issue) (hi : i ∈ unionIssues cfg path s) :
    i.code = CodeUnionNoDiscriminator ∨ i.code = CodeLargeUnion ∨
    i.code = CodeAdditionalProps := by
  simp only [unionIssues] at hi
  split at hi
  · rw [List.mem_append, List.mem_append] at hi
    rcases hi with (hi | hi) | hi <;>
      (split at hi <;> simp_all)
  · simp at hi

theorem variants_ne_nil (s : Schema) (h : s.IsUnion = true) :
    s.GetUnionVariants.toList ≠ [] := by
  rcases s with ⟨c, d, df, ao, oo, al, ps, aps, it⟩
  cases ao <;> cases oo <;>
    simp_all [Schema.IsUnion, Schema.GetUnionVariants, Schema.anyOf,
      Schema.oneOf, SList.isNil, SList.toList]

theorem classify_refs_not_ambiguous (vs : List Schema) (hne : vs ≠ [])
    (hall : ∀ v ∈ vs, v.IsRef = true) :
    classifyUnion vs ≠ .Ambiguous := by
  unfold classifyUnion
  split
  · simp
  · rw [if_pos ⟨by simpa using hne, by
      rw [List.all_eq_true]; exact fun v hv => hall v hv⟩]
    simp

-- # C3: unions made only of references

/-- C3: for every union node all of whose variants are references, no
union-no-discriminator issue is produced at that node, under any profile;
the all-refs scenario document produces none anywhere. -/
theorem c3_reference_only_unions :
    (∀ (cfg : Config) (path : String) (s : Schema), s.IsUnion = true →
       (∀ v ∈ s.GetUnionVariants.toList, v.IsRef = true) →
       ∀ i ∈ checkNode cfg path s, i.code ≠ CodeUnionNoDiscriminator) ∧
    (∃ r, Lint DefaultConfig allRefsDoc = .ok r ∧
       ∀ i ∈ r.Issues, i.code ≠ CodeUnionNoDiscriminator) := by
  constructor
  · intro cfg path s hu hall i hi hc
    rw [checkNode, List.mem_append] at hi
    rcases hi with hi | hi
    · obtain ⟨_, hamb⟩ := unionIssues_noDisc cfg path s i hi hc
      exact classify_refs_not_ambiguous _ (variants_ne_nil s hu) hall hamb
    · rcases scaleIssues_codes cfg path s i hi with h | h | h | h <;>
        exact absurd (hc.symm.trans h) (by decide)
  · exact ⟨⟨[]⟩, rfl, by simp⟩

theorem c3_witness :
    (Schema.mk {} .nil .nil
        (.cons (.mk { ref := "#/$defs/A" } .nil .nil .nil .nil .nil .nil
          .none .none) .nil) .nil .nil .nil .none .none).IsUnion = true ∧
    ∀ i ∈ checkNode DefaultConfig "$"
        (Schema.mk {} .nil .nil
          (.cons (.mk { ref := "#/$defs/A" } .nil .nil .nil .nil .nil .nil
            .none .none) .nil) .nil .nil .nil .none .none),
      i.code ≠ CodeUnionNoDiscriminator :=
  ⟨rfl,
   c3_reference_only_unions.1 DefaultConfig "$"
     (Schema.mk {} .nil .nil
       (.cons (.mk { ref := "#/$defs/A" } .nil .nil .nil .nil .nil .nil
         .none .none) .nil) .nil .nil .nil .none .none) rfl
     (by intro v hv; simp [SList.toList] at hv; subst hv; rfl)⟩

-- # C1 helpers: discriminator detection succeeds

theorem SMap.mem_keys_of_find? (m : SMap) (p : String)
    (h : (m.find? p).isSome = true) : p ∈ m.toList.map Prod.fst := by
  induction m using SMap.inductionMap with
  | nil => simp [SMap.find?] at h
  | cons k v tl ih =>
      by_cases hk : k = p
      · subst hk
        simp [SMap.toList]
      · rw [SMap.find?, if_neg hk] at h
        simp [SMap.toList]
        right
        simpa using ih h

theorem distinctConsts_of_pairwise (l : List JSON)
    (h : l.Pairwise (fun a b => jsonBeq a b = false)) :
    distinctConsts l = true := by
  induction l with
  | nil => rfl
  | cons x xs ihh =>
      rw [List.pairwise_cons] at h
      have h1 : xs.any (fun y => jsonBeq x y) = false := by
        rw [List.any_eq_false]
        exact fun y hy => by simp [h.1 y hy]
      simp [distinctConsts, h1, ihh h.2]

theorem detect_some (vs : List Schema) (f : String)
    (hlen : 2 ≤ vs.length)
    (hcommon : ∀ v ∈ vs, (propertyConst v f).isSome = true)
    (hdist : distinctConsts (vs.filterMap (fun v => propertyConst v f)) =
      true) :
    ∃ g, detectDiscriminator vs = some g := by
  unfold detectDiscriminator
  rw [if_neg (by omega)]
  cases vs with
  | nil => simp at hlen
  | cons v0 rest =>
      have hgood : isGoodCandidate (v0 :: rest) f = true := by
        unfold isGoodCandidate
        rw [Bool.and_eq_true]
        exact ⟨by rw [List.all_eq_true]; exact fun v hv => hcommon v hv,
          hdist⟩
      have hmem : f ∈ candidateFields (v0 :: rest) := by
        unfold candidateFields
        rw [List.mem_filter]
        refine ⟨?_, hgood⟩
        have h0 := hcommon v0 (by simp)
        unfold propertyConst at h0
        cases hf : v0.properties.find? f with
        | none => rw [hf] at h0; simp at h0
        | some t => exact SMap.mem_keys_of_find? _ _ (by rw [hf]; rfl)
      cases hcf : (candidateFields (v0 :: rest)).head? with
      | none =>
          rw [List.head?_eq_none_iff] at hcf
          rw [hcf] at hmem
          cases hmem
      | some g => exact ⟨g, rfl⟩

theorem classify_discriminated (vs : List Schema) (hlen : 2 ≤ vs.length)
    (hobj : ∀ v ∈ vs, v.IsRef = false ∧ v.typeName ≠ "null")
    (hdet : ∃ g, detectDiscriminator vs = some g) :
    ∃ g, classifyUnion vs = .Discriminated g := by
  obtain ⟨g, hg⟩ := hdet
  refine ⟨g, ?_⟩
  unfold classifyUnion
  rw [if_neg ?hnull, if_neg ?href, hg]
  case hnull =>
    rintro ⟨h2, hany⟩
    rw [List.any_eq_true] at hany
    obtain ⟨v, hv, hnv⟩ := hany
    exact (hobj v hv).2 (by simpa [isNullVariant] using hnv)
  case href =>
    rintro ⟨hne, hall⟩
    rw [List.all_eq_true] at hall
    cases vs with
    | nil => simp at hlen
    | cons v0 rest =>
        have h1 := hall v0 (by simp)
        have h2 := (hobj v0 (by simp)).1
        rw [h2] at h1
        exact Bool.noConfusion h1

theorem checkNode_noDisc_of_not_ambiguous (cfg : Config) (path : String)
    (s : Schema)
    (hna : classifyUnion s.GetUnionVariants.toList ≠ .Ambiguous) :
    ∀ i ∈ checkNode cfg path s, i.code ≠ CodeUnionNoDiscriminator := by
  intro i hi hc
  rw [checkNode, List.mem_append] at hi
  rcases hi with hi | hi
  · exact hna (unionIssues_noDisc cfg path s i hi hc).2
  · rcases scaleIssues_codes cfg path s i hi with h | h | h | h <;>
      exact absurd (hc.symm.trans h) (by decide)

-- # C1: unions with a shared constant discriminator

/-- C1: every union whose variants are object schemas (not references, not
null-typed) sharing a property `f` that carries a const in every variant
with pairwise-distinct values classifies as Discriminated and produces no
union-no-discriminator issue under the default profile; the dog/cat anyOf
document lints with zero errors, classification Discriminated with
discriminator field "type". -/
theorem c1_discriminated_unions :
    (∀ (path : String) (s : Schema) (f : String),
       2 ≤ s.GetUnionVariants.toList.length →
       (∀ v ∈ s.GetUnionVariants.toList,
          v.IsObject = true ∧ v.IsRef = false ∧ v.typeName ≠ "null") →
       (∀ v ∈ s.GetUnionVariants.toList,
          (propertyConst v f).isSome = true) →
       (s.GetUnionVariants.toList.filterMap
          (fun v => propertyConst v f)).Pairwise
            (fun a b => jsonBeq a b = false) →
       (∃ g, classifyUnion s.GetUnionVariants.toList = .Discriminated g) ∧
       (∀ i ∈ checkNode DefaultConfig path s,
          i.code ≠ CodeUnionNoDiscriminator)) ∧
    (∃ r, Lint DefaultConfig dogCatDoc = .ok r ∧ r.ErrorCount = 0) ∧
    (∃ a animal, decodeValue dogCatDoc = .ok a ∧
       a.defs.find? "Animal" = some animal ∧
       classifyUnion animal.GetUnionVariants.toList =
         .Discriminated "type") := by
  refine ⟨?_, ⟨⟨[]⟩, rfl, rfl⟩, ⟨_, _, rfl, rfl, rfl⟩⟩
  intro path s f hlen hobj hcommon hdist
  have hd := classify_discriminated s.GetUnionVariants.toList hlen
    (fun v hv => (hobj v hv).2)
    (detect_some s.GetUnionVariants.toList f hlen hcommon
      (distinctConsts_of_pairwise _ hdist))
  refine ⟨hd, ?_⟩
  obtain ⟨g, hg⟩ := hd
  exact checkNode_noDisc_of_not_ambiguous DefaultConfig path s
    (by rw [hg]; simp)

theorem c1_witness :
    (∃ g, classifyUnion unionAB.GetUnionVariants.toList =
      .Discriminated g) ∧
    (∀ i ∈ checkNode DefaultConfig "$" unionAB,
      i.code ≠ CodeUnionNoDiscriminator) :=
  c1_discriminated_unions.1 "$" unionAB "kind" (by decide)
    (by
      intro v hv
      simp [unionAB, Schema.GetUnionVariants, Schema.anyOf, SList.isNil,
        SList.toList] at hv
      rcases hv with rfl | rfl
      · exact ⟨rfl, rfl, by decide⟩
      · exact ⟨rfl, rfl, by decide⟩)
    (by
      intro v hv
      simp [unionAB, Schema.GetUnionVariants, Schema.anyOf, SList.isNil,
        SList.toList] at hv
      rcases hv with rfl | rfl
      · rfl
      · rfl)
    (by
      have hfm : (unionAB.GetUnionVariants.toList.filterMap
          (fun v => propertyConst v "kind")) =
            [JSON.str "a", JSON.str "b"] := rfl
      rw [hfm]
      exact List.Pairwise.cons
        (fun b hb => by simp at hb; subst hb; rfl)
        (List.Pairwise.cons (fun b hb => by simp at hb) List.Pairwise.nil))

-- # C4 helpers: the composition rule fires exactly in the scale profile

theorem scale_comp_mem (path : String) (s : Schema)
    (hcomp : s.hasComposition = true) :
    ∃ i ∈ checkNode ScaleConfig path s,
      i.code = CodeCompositionDisallowed ∧ i.severity = .error := by
  refine ⟨⟨CodeCompositionDisallowed, .error, path,
    "composition keywords are not allowed"⟩, ?_, rfl, rfl⟩
  rw [checkNode, List.mem_append]
  right
  rw [scaleIssues,
    if_pos (show ScaleConfig.profile = Profile.scale from rfl), hcomp]
  simp

mutual
theorem walk_scale_hasComp (s : Schema) : ∀ path, containsAnyOf s = true →
    ∃ i ∈ walk ScaleConfig path s,
      i.code = CodeCompositionDisallowed ∧ i.severity = .error := by
  rcases s with ⟨c, d, df, ao, oo, al, ps, aps, it⟩
  intro path hc
  rw [containsAnyOf] at hc
  simp only [Bool.or_eq_true] at hc
  rcases hc with ((((((((h | h) | h) | h) | h) | h) | h) | h) | h)
  · obtain ⟨i, hi, hp⟩ := scale_comp_mem path (.mk c d df ao oo al ps aps it)
      (by simp [Schema.hasComposition, Schema.anyOf, h])
    exact ⟨i, by rw [walk]; simp only [List.mem_append]; tauto, hp⟩
  · obtain ⟨i, hi, hp⟩ := walkM_scale_hasComp d (path ++ "/$defs") h
    exact ⟨i, by rw [walk]; simp only [List.mem_append]; tauto, hp⟩
  · obtain ⟨i, hi, hp⟩ := walkM_scale_hasComp df (path ++ "/definitions") h
    exact ⟨i, by rw [walk]; simp only [List.mem_append]; tauto, hp⟩
  · obtain ⟨i, hi, hp⟩ := walkL_scale_hasComp ao (path ++ "/anyOf") 0 h
    exact ⟨i, by rw [walk]; simp only [List.mem_append]; tauto, hp⟩
  · obtain ⟨i, hi, hp⟩ := walkL_scale_hasComp oo (path ++ "/oneOf") 0 h
    exact ⟨i, by rw [walk]; simp only [List.mem_append]; tauto, hp⟩
  · obtain ⟨i, hi, hp⟩ := walkL_scale_hasComp al (path ++ "/allOf") 0 h
    exact ⟨i, by rw [walk]; simp only [List.mem_append]; tauto, hp⟩
  · obtain ⟨i, hi, hp⟩ := walkM_scale_hasComp ps (path ++ "/properties") h
    exact ⟨i, by rw [walk]; simp only [List.mem_append]; tauto, hp⟩
  · obtain ⟨i, hi, hp⟩ := walkO_scale_hasComp aps
      (path ++ "/additionalProperties") h
    exact ⟨i, by rw [walk]; simp only [List.mem_append]; tauto, hp⟩
  · obtain ⟨i, hi, hp⟩ := walkO_scale_hasComp it (path ++ "/items") h
    exact ⟨i, by rw [walk]; simp only [List.mem_append]; tauto, hp⟩

theorem walkL_scale_hasComp (l : SList) : ∀ path n,
    containsAnyOfL l = true →
    ∃ i ∈ walkSList ScaleConfig path n l,
      i.code = CodeCompositionDisallowed ∧ i.severity = .error := by
  cases l with
  | nil =>
      intro path n hc
      rw [containsAnyOfL] at hc
      cases hc
  | cons s tl =>
      intro path n hc
      rw [containsAnyOfL, Bool.or_eq_true] at hc
      rcases hc with h | h
      · obtain ⟨i, hi, hp⟩ := walk_scale_hasComp s
          (path ++ "/" ++ toString n) h
        exact ⟨i, by rw [walkSList]; simp only [List.mem_append]; tauto, hp⟩
      · obtain ⟨i, hi, hp⟩ := walkL_scale_hasComp tl path (n + 1) h
        exact ⟨i, by rw [walkSList]; simp only [List.mem_append]; tauto, hp⟩

theorem walkM_scale_hasComp (m : SMap) : ∀ path,
    containsAnyOfM m = true →
    ∃ i ∈ walkSMap ScaleConfig path m,
      i.code = CodeCompositionDisallowed ∧ i.severity = .error := by
  cases m with
  | nil =>
      intro path hc
      rw [containsAnyOfM] at hc
      cases hc
  | cons k s tl =>
      intro path hc
      rw [containsAnyOfM, Bool.or_eq_true] at hc
      rcases hc with h | h
      · obtain ⟨i, hi, hp⟩ := walk_scale_hasComp s (path ++ "/" ++ k) h
        exact ⟨i, by rw [walkSMap]; simp only [List.mem_append]; tauto, hp⟩
      · obtain ⟨i, hi, hp⟩ := walkM_scale_hasComp tl path h
        exact ⟨i, by rw [walkSMap]; simp only [List.mem_append]; tauto, hp⟩

theorem walkO_scale_hasComp (o : SOpt) : ∀ path,
    containsAnyOfO o = true →
    ∃ i ∈ walkSOpt ScaleConfig path o,
      i.code = CodeCompositionDisallowed ∧ i.severity = .error := by
  cases o with
  | none =>
      intro path hc
      rw [containsAnyOfO] at hc
      cases hc
  | some s =>
      intro path hc
      rw [containsAnyOfO] at hc
      obtain ⟨i, hi, hp⟩ := walk_scale_hasComp s path hc
      exact ⟨i, by rw [walkSOpt]; exact hi, hp⟩
end

theorem checkNode_default_no_comp (path : String) (s : Schema) (i : Issue)
    (hi : i ∈ checkNode DefaultConfig path s) :
    i.code ≠ CodeCompositionDisallowed := by
  intro hc
  rw [checkNode, List.mem_append] at hi
  rcases hi with hi | hi
  · rcases unionIssues_codes DefaultConfig path s i hi with h | h | h <;>
      exact absurd (hc.symm.trans h) (by decide)
  · rw [scaleIssues] at hi
    rw [if_neg (show ¬DefaultConfig.profile = Profile.scale from by
      decide)] at hi
    cases hi

mutual
theorem walk_default_no_comp (s : Schema) : ∀ path i,
    i ∈ walk DefaultConfig path s → i.code ≠ CodeCompositionDisallowed := by
  rcases s with ⟨c, d, df, ao, oo, al, ps, aps, it⟩
  intro path i hi
  rw [walk] at hi
  simp only [List.mem_append] at hi
  rcases hi with ((((((((hi | hi) | hi) | hi) | hi) | hi) | hi) | hi) | hi)
  · exact checkNode_default_no_comp path _ i hi
  · exact walkM_default_no_comp d _ i hi
  · exact walkM_default_no_comp df _ i hi
  · exact walkL_default_no_comp ao _ 0 i hi
  · exact walkL_default_no_comp oo _ 0 i hi
  · exact walkL_default_no_comp al _ 0 i hi
  · exact walkM_default_no_comp ps _ i hi
  · exact walkO_default_no_comp aps _ i hi
  · exact walkO_default_no_comp it _ i hi

theorem walkL_default_no_comp (l : SList) : ∀ path n i,
    i ∈ walkSList DefaultConfig path n l →
    i.code ≠ CodeCompositionDisallowed := by
  cases l with
  | nil =>
      intro path n i hi
      rw [walkSList] at hi
      cases hi
  | cons s tl =>
      intro path n i hi
      rw [walkSList, List.mem_append] at hi
      rcases hi with hi | hi
      · exact walk_default_no_comp s _ i hi
      · exact walkL_default_no_comp tl path (n + 1) i hi

theorem walkM_default_no_comp (m : SMap) : ∀ path i,
    i ∈ walkSMap DefaultConfig path m →
    i.code ≠ CodeCompositionDisallowed := by
  cases m with
  | nil =>
      intro path i hi
      rw [walkSMap] at hi
      cases hi
  | cons k s tl =>
      intro path i hi
      rw [walkSMap, List.mem_append] at hi
      rcases hi with hi | hi
      · exact walk_default_no_comp s _ i hi
      · exact walkM_default_no_comp tl path i hi

theorem walkO_default_no_comp (o : SOpt) : ∀ path i,
    i ∈ walkSOpt DefaultConfig path o →
    i.code ≠ CodeCompositionDisallowed := by
  cases o with
  | none =>
      intro path i hi
      rw [walkSOpt] at hi
      cases hi
  | some s =>
      intro path i hi
      rw [walkSOpt] at hi
      exact walk_default_no_comp s path i hi
end

-- # C4: the composition-disallowed rule and the two profiles

/-- C4: every document containing an anyOf anywhere yields at least one
composition-disallowed error under the scale profile, and no
composition-disallowed issue at all under the default profile. -/
theorem c4_composition_profiles :
    (∀ (j : JSON) (s : Schema), decodeValue j = .ok s →
       containsAnyOf s = true →
       ∃ r, Lint ScaleConfig j = .ok r ∧
         ∃ i ∈ r.Issues, i.code = CodeCompositionDisallowed ∧
           i.severity = .error) ∧
    (∀ (j : JSON) (r : Result), Lint DefaultConfig j = .ok r →
       ∀ i ∈ r.Issues, i.code ≠ CodeCompositionDisallowed) := by
  constructor
  · intro j s hdec hc
    refine ⟨⟨walk ScaleConfig "$" s⟩, ?_, ?_⟩
    · rw [Lint, hdec]
    · exact walk_scale_hasComp s "$" hc
  · intro j r hr i hi
    rw [Lint] at hr
    cases hdec : decodeValue j with
    | error e =>
        rw [hdec] at hr
        cases hr
    | ok root =>
        rw [hdec] at hr
        have hri : r.Issues = walk DefaultConfig "$" root := by
          cases hr
          rfl
        rw [hri] at hi
        exact walk_default_no_comp root "$" i hi

theorem c4_witness :
    (∃ r, Lint ScaleConfig dogCatDoc = .ok r ∧
       ∃ i ∈ r.Issues, i.code = CodeCompositionDisallowed ∧
         i.severity = .error) ∧
    (∀ i ∈ (Result.mk []).Issues, i.code ≠ CodeCompositionDisallowed) :=
  ⟨c4_composition_profiles.1 dogCatDoc
     (match decodeValue dogCatDoc with
       | .ok s => s
       | .error _ => emptySchema) rfl rfl,
   c4_composition_profiles.2 dogCatDoc ⟨[]⟩ rfl⟩

-- # C7: well-formed inputs decode without error

theorem strListOfExc_ok (js : JArr) : allStrJ js = true →
    ∃ l, strListOfExc js = .ok l := by
  induction js using JArr.inductionArr with
  | nil => exact fun _ => ⟨[], rfl⟩
  | cons v tl ih =>
      intro h
      cases v with
      | str s =>
          obtain ⟨l, hl⟩ := ih h
          refine ⟨s :: l, ?_⟩
          show (strListOfExc tl).map (fun l => s :: l) = _
          rw [hl]
          rfl
      | null => exact Bool.noConfusion h
      | bool b => exact Bool.noConfusion h
      | num n => exact Bool.noConfusion h
      | arr a => exact Bool.noConfusion h
      | obj o => exact Bool.noConfusion h

theorem applyStr_ok (acc : Schema) (k sv : String) (h : strKeyOk k = true) :
    ∃ u, applyStr acc k sv = .ok u := by
  rcases acc with ⟨c, d, df, ao, oo, al, ps, aps, it⟩
  rw [strKeyOk] at h
  cases hk : keyOf k <;> rw [hk] at h <;>
    first
      | exact Bool.noConfusion h
      | exact ⟨_, by rw [applyStr, hk]⟩

theorem applyBool_ok (acc : Schema) (k : String) (b : Bool)
    (h : boolKeyOk k = true) : ∃ u, applyBool acc k b = .ok u := by
  rcases acc with ⟨c, d, df, ao, oo, al, ps, aps, it⟩
  rw [boolKeyOk] at h
  cases hk : keyOf k <;> rw [hk] at h <;>
    first
      | exact Bool.noConfusion h
      | exact ⟨_, by rw [applyBool, hk]⟩

theorem applyNum_ok (acc : Schema) (k : String) (n : Int)
    (h : numKeyOk k = true) : ∃ u, applyNum acc k n = .ok u := by
  rcases acc with ⟨c, d, df, ao, oo, al, ps, aps, it⟩
  rw [numKeyOk] at h
  cases hk : keyOf k <;> rw [hk] at h <;>
    first
      | exact Bool.noConfusion h
      | exact ⟨_, by rw [applyNum, hk]⟩

theorem applyArr_ok (acc : Schema) (k : String) (js : JArr)
    (xs : Except String SList)
    (hwf : wfArrVal k js (wfListVals js) = true)
    (hxs : wfListVals js = true → ∃ l, xs = .ok l) :
    ∃ u, applyArr acc k js xs = .ok u := by
  rcases acc with ⟨c, d, df, ao, oo, al, ps, aps, it⟩
  rw [wfArrVal] at hwf
  cases hk : keyOf k <;> rw [hk] at hwf
  case anyOfKey =>
      obtain ⟨l, hl⟩ := hxs hwf
      exact ⟨_, by rw [applyArr.eq_def, hk, hl]; try rfl⟩
  case oneOfKey =>
      obtain ⟨l, hl⟩ := hxs hwf
      exact ⟨_, by rw [applyArr.eq_def, hk, hl]; try rfl⟩
  case allOfKey =>
      obtain ⟨l, hl⟩ := hxs hwf
      exact ⟨_, by rw [applyArr.eq_def, hk, hl]; try rfl⟩
  case requiredKey =>
      obtain ⟨l, hl⟩ := strListOfExc_ok js hwf
      exact ⟨_, by rw [applyArr.eq_def, hk, hl]; try rfl⟩
  case typeKey =>
      cases hso : stringsOfOpt js with
      | none => exact ⟨_, by rw [applyArr.eq_def, hk, hso]; try rfl⟩
      | some ts => exact ⟨_, by rw [applyArr.eq_def, hk, hso]; try rfl⟩
  case enumKey => exact ⟨_, by rw [applyArr.eq_def, hk]; try rfl⟩
  case constKey => exact ⟨_, by rw [applyArr.eq_def, hk]; try rfl⟩
  case defaultKey => exact ⟨_, by rw [applyArr.eq_def, hk]; try rfl⟩
  case otherKey => exact ⟨_, by rw [applyArr.eq_def, hk]; try rfl⟩
  all_goals exact Bool.noConfusion hwf

theorem applyObj_ok (acc : Schema) (k : String) (g : JObj)
    (mp mprops : Except String SMap) (sv : Except String Schema)
    (hwf : wfObjVal k (wfMapVals g) (wfFields g) = true)
    (hmp : wfMapVals g = true → ∃ m, mp = .ok m)
    (hmprops : wfMapVals g = true → ∃ m, mprops = .ok m)
    (hsv : wfFields g = true → ∃ t, sv = .ok t) :
    ∃ u, applyObj acc k g mp mprops sv = .ok u := by
  rcases acc with ⟨c, d, df, ao, oo, al, ps, aps, it⟩
  rw [wfObjVal] at hwf
  cases hk : keyOf k <;> rw [hk] at hwf
  case defsKey =>
      obtain ⟨m, hm⟩ := hmp hwf
      exact ⟨_, by rw [applyObj.eq_def, hk, hm]; try rfl⟩
  case definitionsKey =>
      obtain ⟨m, hm⟩ := hmp hwf
      exact ⟨_, by rw [applyObj.eq_def, hk, hm]; try rfl⟩
  case propertiesKey =>
      obtain ⟨m, hm⟩ := hmprops hwf
      exact ⟨_, by rw [applyObj.eq_def, hk, hm]; try rfl⟩
  case itemsKey =>
      obtain ⟨t, ht⟩ := hsv hwf
      exact ⟨_, by rw [applyObj.eq_def, hk, ht]; try rfl⟩
  case apKey =>
      obtain ⟨t, ht⟩ := hsv hwf
      exact ⟨_, by rw [applyObj.eq_def, hk, ht]; try rfl⟩
  case constKey => exact ⟨_, by rw [applyObj.eq_def, hk]; try rfl⟩
  case defaultKey => exact ⟨_, by rw [applyObj.eq_def, hk]; try rfl⟩
  case otherKey => exact ⟨_, by rw [applyObj.eq_def, hk]; try rfl⟩
  all_goals exact Bool.noConfusion hwf

mutual
theorem wfSchema_decodes (j : JSON) : wfSchema j = true →
    ∃ s, decodeValue j = .ok s := by
  cases j with
  | null => exact fun h => Bool.noConfusion h
  | bool b => exact fun _ => ⟨boolSchema b, rfl⟩
  | num n => exact fun h => Bool.noConfusion h
  | str s => exact fun h => Bool.noConfusion h
  | arr js => exact fun h => Bool.noConfusion h
  | obj fs =>
      intro h
      obtain ⟨s, hs⟩ := wfFields_decodes fs h emptySchema
      exact ⟨s, hs⟩

theorem wfFields_decodes (fs : JObj) : wfFields fs = true →
    ∀ acc, ∃ s, decodeFields fs acc = .ok s := by
  cases fs with
  | nil => exact fun _ acc => ⟨acc, rfl⟩
  | cons k v tl =>
      intro h acc
      cases v with
      | null => exact Bool.noConfusion h
      | bool b =>
          rw [wfFields] at h
          simp only [Bool.and_eq_true] at h
          obtain ⟨h1, h2⟩ := h
          obtain ⟨u, hu⟩ := applyBool_ok acc k b h1
          obtain ⟨s, hs⟩ := wfFields_decodes tl h2 u
          exact ⟨s, by rw [decodeFields_cons]; exact exceptBind_ok.mpr ⟨u, hu, hs⟩⟩
      | num n =>
          rw [wfFields] at h
          simp only [Bool.and_eq_true] at h
          obtain ⟨h1, h2⟩ := h
          obtain ⟨u, hu⟩ := applyNum_ok acc k n h1
          obtain ⟨s, hs⟩ := wfFields_decodes tl h2 u
          exact ⟨s, by rw [decodeFields_cons]; exact exceptBind_ok.mpr ⟨u, hu, hs⟩⟩
      | str sv =>
          rw [wfFields] at h
          simp only [Bool.and_eq_true] at h
          obtain ⟨h1, h2⟩ := h
          obtain ⟨u, hu⟩ := applyStr_ok acc k sv h1
          obtain ⟨s, hs⟩ := wfFields_decodes tl h2 u
          exact ⟨s, by rw [decodeFields_cons]; exact exceptBind_ok.mpr ⟨u, hu, hs⟩⟩
      | arr js =>
          rw [wfFields] at h
          simp only [Bool.and_eq_true] at h
          obtain ⟨h1, h2⟩ := h
          obtain ⟨u, hu⟩ := applyArr_ok acc k js (decodeSListPtr js) h1
            (fun hl => wfListVals_decodes js hl)
          obtain ⟨s, hs⟩ := wfFields_decodes tl h2 u
          exact ⟨s, by rw [decodeFields_cons]; exact exceptBind_ok.mpr ⟨u, hu, hs⟩⟩
      | obj g =>
          rw [wfFields] at h
          simp only [Bool.and_eq_true] at h
          obtain ⟨h1, h2⟩ := h
          obtain ⟨u, hu⟩ := applyObj_ok acc k g (decodeSMapPtr g)
            (decodeSMapProps g) (decodeFields g emptySchema) h1
            (fun hm => wfMapVals_decodesPtr g hm)
            (fun hm => wfMapVals_decodesProps g hm)
            (fun hf => wfFields_decodes g hf emptySchema)
          obtain ⟨s, hs⟩ := wfFields_decodes tl h2 u
          exact ⟨s, by rw [decodeFields_cons]; exact exceptBind_ok.mpr ⟨u, hu, hs⟩⟩

theorem wfListVals_decodes (js : JArr) : wfListVals js = true →
    ∃ l, decodeSListPtr js = .ok l := by
  cases js with
  | nil => exact fun _ => ⟨.nil, rfl⟩
  | cons v tl =>
      intro h
      rw [wfListVals] at h
      simp only [Bool.and_eq_true] at h
      obtain ⟨h1, h2⟩ := h
      obtain ⟨l, hl⟩ := wfListVals_decodes tl h2
      cases v with
      | null => exact Bool.noConfusion h1
      | num n => exact Bool.noConfusion h1
      | str s => exact Bool.noConfusion h1
      | arr a => exact Bool.noConfusion h1
      | bool b => exact ⟨.cons (boolSchema b) l, by rw [decodeSListPtr, hl]; try rfl⟩
      | obj g =>
          obtain ⟨s, hs⟩ := wfFields_decodes g h1 emptySchema
          exact ⟨.cons s l, by rw [decodeSListPtr, hs, hl]; try rfl⟩

theorem wfMapVals_decodesPtr (g : JObj) : wfMapVals g = true →
    ∃ m, decodeSMapPtr g = .ok m := by
  cases g with
  | nil => exact fun _ => ⟨.nil, rfl⟩
  | cons k v tl =>
      intro h
      rw [wfMapVals] at h
      simp only [Bool.and_eq_true] at h
      obtain ⟨h1, h2⟩ := h
      obtain ⟨m, hm⟩ := wfMapVals_decodesPtr tl h2
      cases v with
      | null => exact Bool.noConfusion h1
      | num n => exact Bool.noConfusion h1
      | str s => exact Bool.noConfusion h1
      | arr a => exact Bool.noConfusion h1
      | bool b => exact ⟨.cons k (boolSchema b) m, by rw [decodeSMapPtr, hm]; try rfl⟩
      | obj f =>
          obtain ⟨s, hs⟩ := wfFields_decodes f h1 emptySchema
          exact ⟨.cons k s m, by rw [decodeSMapPtr, hs, hm]; try rfl⟩

theorem wfMapVals_decodesProps (g : JObj) : wfMapVals g = true →
    ∃ m, decodeSMapProps g = .ok m := by
  cases g with
  | nil => exact fun _ => ⟨.nil, rfl⟩
  | cons k v tl =>
      intro h
      rw [wfMapVals] at h
      simp only [Bool.and_eq_true] at h
      obtain ⟨h1, h2⟩ := h
      obtain ⟨m, hm⟩ := wfMapVals_decodesProps tl h2
      cases v with
      | null => exact Bool.noConfusion h1
      | num n => exact Bool.noConfusion h1
      | str s => exact Bool.noConfusion h1
      | arr a => exact Bool.noConfusion h1
      | bool b => exact ⟨.cons k (boolSchema b) m, by rw [decodeSMapProps, hm]; try rfl⟩
      | obj f =>
          obtain ⟨s, hs⟩ := wfFields_decodes f h1 emptySchema
          exact ⟨.cons k s m, by rw [decodeSMapProps, hs, hm]; try rfl⟩
end

/-- C7 counterexample: the document with a number under `anyOf` is
syntactically valid JSON (every value of the JSON type is), yet the
decoder reports an unmarshalling error, refuting "decoding returns an
error only when the input is not syntactically valid JSON". -/
theorem c7_counterexample :
    decodeValue anyOfNumDoc =
      .error "json: cannot unmarshal number into slice of Schema" := rfl

/-- C7 amended: for every input that is well-formed JSON Schema syntax
(including self-referential documents reachable only through a local
`$ref`), UnmarshalJSON succeeds, and a `$ref` field is stored as an
opaque string, never dereferenced. -/
theorem c7_decoder_contract :
    (∀ j : JSON, wfSchema j = true → ∃ s, decodeValue j = .ok s) ∧
    (∀ (fs : JObj) (s : Schema) (r : String),
       decodeValue (.obj fs) = .ok s →
       fs.lookup "$ref" = some (.str r) → s.ref = r) := by
  constructor
  · exact fun j h => wfSchema_decodes j h
  · intro fs s r hdec hlk
    exact (decodeFields_track fs emptySchema s hdec).2.1.2 r hlk

theorem c7_witness :
    (∃ s, decodeValue recursiveRefDoc = .ok s) ∧
    (Schema.mk { ref := "#/$defs/Node" } .nil .nil .nil .nil .nil .nil .none
      .none).ref = "#/$defs/Node" :=
  ⟨c7_decoder_contract.1 recursiveRefDoc rfl,
   c7_decoder_contract.2 (.cons "$ref" (.str "#/$defs/Node") .nil)
     (Schema.mk { ref := "#/$defs/Node" } .nil .nil .nil .nil .nil .nil .none
       .none) "#/$defs/Node" rfl rfl⟩

-- # C10: bridging the older decoder to the current one

def applyStepV1 (acc : Schema) (k : String) (v : JSON) :
    Except String Schema :=
  match v with
  | .null => applyNullV1 acc k
  | .bool b => applyBoolV1 acc k b
  | .num n => applyNumV1 acc k n
  | .str sv => applyStrV1 acc k sv
  | .arr js => applyArrV1 acc k js (decodeSListPtrV1 js)
  | .obj g =>
      applyObjV1 acc k g (decodeSMapPtrV1 g) (decodeFieldsV1 g emptySchema)

theorem decodeFieldsV1_cons (k : String) (v : JSON) (tl : JObj)
    (acc : Schema) :
    decodeFieldsV1 (.cons k v tl) acc =
      (applyStepV1 acc k v) >>= fun u => decodeFieldsV1 tl u := by
  cases v <;> rfl

theorem hasKey_cons_of_tl (k : String) (v : JSON) (tl : JObj) (key : String)
    (h : tl.hasKey key = true) : (JObj.cons k v tl).hasKey key = true := by
  simp only [JObj.hasKey, JObj.lookup] at h ⊢
  cases hres : tl.lookup key
  · rw [hres] at h
    cases h
  · rfl

theorem noDupKeys_cons {k : String} {v : JSON} {tl : JObj}
    (h : noDupKeys (.cons k v tl) = true) :
    tl.hasKey k = false ∧ noDupKeys tl = true := by
  rw [noDupKeys] at h
  simpa only [Bool.and_eq_true, Bool.not_eq_true'] using h

theorem noDupJO_cons {k : String} {v : JSON} {tl : JObj}
    (h : noDupJO (.cons k v tl) = true) :
    noDupJ v = true ∧ noDupJO tl = true := by
  rw [noDupJO] at h
  simpa only [Bool.and_eq_true] using h

theorem noDupJA_cons {v : JSON} {tl : JArr}
    (h : noDupJA (.cons v tl) = true) :
    noDupJ v = true ∧ noDupJA tl = true := by
  rw [noDupJA] at h
  simpa only [Bool.and_eq_true] using h

theorem applyStepV1_type (acc : Schema) (k : String) (v : JSON) (u : Schema)
    (h : applyStepV1 acc k v = .ok u) (hne : keyOf k ≠ .typeKey) :
    u.typeName = acc.typeName ∧ u.typeList = acc.typeList := by
  rcases acc with ⟨c, d, df, ao, oo, al, ps, aps, it⟩
  cases v
  case null =>
    exact (applyNullV1_track c d df ao oo al ps aps it k u h).2.2.1 hne
  case bool b =>
    exact (applyBoolV1_track c d df ao oo al ps aps it k b u h).2.2.1 hne
  case num n =>
    exact (applyNumV1_track c d df ao oo al ps aps it k n u h).2.2.1 hne
  case str sv =>
    exact (applyStrV1_track c d df ao oo al ps aps it k sv u h).2.2.1 hne
  case arr js =>
    exact (applyArrV1_track c d df ao oo al ps aps it k js
      (decodeSListPtrV1 js) u h).2.2.1 hne
  case obj g =>
    exact (applyObjV1_track c d df ao oo al ps aps it k g (decodeSMapPtrV1 g)
      (decodeFieldsV1 g emptySchema) u h).2.2.1 hne

theorem applyStep_type (acc : Schema) (k : String) (v : JSON) (u : Schema)
    (h : applyStep acc k v = .ok u) (hne : keyOf k ≠ .typeKey) :
    u.typeName = acc.typeName ∧ u.typeList = acc.typeList := by
  refine (applyStep_track acc k v u h).2.2.1 (fun hk => hne ?_)
  rw [hk]
  rfl

theorem bridgeNullArm (acc1 acc0 : Schema) (k : String)
    (he : eraseDiff acc1 = eraseDiff acc0)
    (hty : keyOf k = .typeKey → acc1.typeName = "" ∧ acc0.typeList = [])
    (u1 : Schema) (h : applyNullV1 acc1 k = .ok u1) :
    ∃ u0, applyNull acc0 k = .ok u0 ∧ eraseDiff u1 = eraseDiff u0 := by
  rcases acc1 with ⟨c1, d1, df1, ao1, oo1, al1, ps1, aps1, it1⟩
  rcases acc0 with ⟨c0, d0, df0, ao0, oo0, al0, ps0, aps0, it0⟩
  simp only [eraseDiff, Schema.mk.injEq] at he
  obtain ⟨hc, hd, hdf, hao, hoo, hal, hps, hit⟩ := he
  simp only [eraseCore, SchemaCore.mk.injEq] at hc
  simp only [applyNullV1] at h
  cases hk : keyOf k <;> rw [hk] at h <;> dsimp only at h <;>
    simp only [Except.ok.injEq] at h <;> subst h
  case typeKey =>
    obtain ⟨hn, hl⟩ := hty hk
    simp only [Schema.typeName, Schema.typeList, Schema.core] at hn hl
    exact ⟨_, by rw [applyNull, hk],
      by simp_all [eraseDiff, eraseCore, Schema.mk.injEq,
        SchemaCore.mk.injEq]⟩
  all_goals
    exact ⟨_, by rw [applyNull, hk],
      by simp_all [eraseDiff, eraseCore, Schema.mk.injEq,
        SchemaCore.mk.injEq]⟩

theorem bridgeStrArm (acc1 acc0 : Schema) (k sv : String)
    (he : eraseDiff acc1 = eraseDiff acc0)
    (hty : keyOf k = .typeKey → acc1.typeName = "" ∧ acc0.typeList = [])
    (u1 : Schema) (h : applyStrV1 acc1 k sv = .ok u1) :
    ∃ u0, applyStr acc0 k sv = .ok u0 ∧ eraseDiff u1 = eraseDiff u0 := by
  rcases acc1 with ⟨c1, d1, df1, ao1, oo1, al1, ps1, aps1, it1⟩
  rcases acc0 with ⟨c0, d0, df0, ao0, oo0, al0, ps0, aps0, it0⟩
  simp only [eraseDiff, Schema.mk.injEq] at he
  obtain ⟨hc, hd, hdf, hao, hoo, hal, hps, hit⟩ := he
  simp only [eraseCore, SchemaCore.mk.injEq] at hc
  simp only [applyStrV1] at h
  cases hk : keyOf k <;> rw [hk] at h <;> dsimp only at h <;>
    first
      | exact Except.noConfusion h
      | (simp only [Except.ok.injEq] at h; subst h)
  case typeKey =>
    obtain ⟨hn, hl⟩ := hty hk
    simp only [Schema.typeName, Schema.typeList, Schema.core] at hn hl
    exact ⟨_, by rw [applyStr, hk],
      by simp_all [eraseDiff, eraseCore, Schema.mk.injEq,
        SchemaCore.mk.injEq]⟩
  all_goals
    exact ⟨_, by rw [applyStr, hk],
      by simp_all [eraseDiff, eraseCore, Schema.mk.injEq,
        SchemaCore.mk.injEq]⟩

theorem bridgeBoolArm (acc1 acc0 : Schema) (k : String) (bv : Bool)
    (he : eraseDiff acc1 = eraseDiff acc0)
    (u1 : Schema) (h : applyBoolV1 acc1 k bv = .ok u1) :
    ∃ u0, applyBool acc0 k bv = .ok u0 ∧ eraseDiff u1 = eraseDiff u0 := by
  rcases acc1 with ⟨c1, d1, df1, ao1, oo1, al1, ps1, aps1, it1⟩
  rcases acc0 with ⟨c0, d0, df0, ao0, oo0, al0, ps0, aps0, it0⟩
  simp only [eraseDiff, Schema.mk.injEq] at he
  obtain ⟨hc, hd, hdf, hao, hoo, hal, hps, hit⟩ := he
  simp only [eraseCore, SchemaCore.mk.injEq] at hc
  simp only [applyBoolV1] at h
  cases hk : keyOf k <;> rw [hk] at h <;> dsimp only at h <;>
    first
      | exact Except.noConfusion h
      | (simp only [Except.ok.injEq] at h; subst h)
  all_goals
    exact ⟨_, by rw [applyBool, hk],
      by simp_all [eraseDiff, eraseCore, Schema.mk.injEq,
        SchemaCore.mk.injEq]⟩

theorem bridgeNumArm (acc1 acc0 : Schema) (k : String) (n : Int)
    (he : eraseDiff acc1 = eraseDiff acc0)
    (u1 : Schema) (h : applyNumV1 acc1 k n = .ok u1) :
    ∃ u0, applyNum acc0 k n = .ok u0 ∧ eraseDiff u1 = eraseDiff u0 := by
  rcases acc1 with ⟨c1, d1, df1, ao1, oo1, al1, ps1, aps1, it1⟩
  rcases acc0 with ⟨c0, d0, df0, ao0, oo0, al0, ps0, aps0, it0⟩
  simp only [eraseDiff, Schema.mk.injEq] at he
  obtain ⟨hc, hd, hdf, hao, hoo, hal, hps, hit⟩ := he
  simp only [eraseCore, SchemaCore.mk.injEq] at hc
  simp only [applyNumV1] at h
  cases hk : keyOf k <;> rw [hk] at h <;> dsimp only at h <;>
    first
      | exact Except.noConfusion h
      | (simp only [Except.ok.injEq] at h; subst h)
  all_goals
    exact ⟨_, by rw [applyNum, hk],
      by simp_all [eraseDiff, eraseCore, Schema.mk.injEq,
        SchemaCore.mk.injEq]⟩

theorem bridgeArrArm (acc1 acc0 : Schema) (k : String) (js : JArr)
    (he : eraseDiff acc1 = eraseDiff acc0)
    (hxs : ∀ l1, decodeSListPtrV1 js = .ok l1 →
       ∃ l0, decodeSListPtr js = .ok l0 ∧ eraseDiffL l1 = eraseDiffL l0)
    (u1 : Schema) (h : applyArrV1 acc1 k js (decodeSListPtrV1 js) = .ok u1) :
    ∃ u0, applyArr acc0 k js (decodeSListPtr js) = .ok u0 ∧
      eraseDiff u1 = eraseDiff u0 := by
  rcases acc1 with ⟨c1, d1, df1, ao1, oo1, al1, ps1, aps1, it1⟩
  rcases acc0 with ⟨c0, d0, df0, ao0, oo0, al0, ps0, aps0, it0⟩
  simp only [eraseDiff, Schema.mk.injEq] at he
  obtain ⟨hc, hd, hdf, hao, hoo, hal, hps, hit⟩ := he
  simp only [eraseCore, SchemaCore.mk.injEq] at hc
  simp only [applyArrV1] at h
  cases hk : keyOf k <;> rw [hk] at h <;> dsimp only at h
  case anyOfKey =>
    cases hx : decodeSListPtrV1 js with
    | error e =>
        rw [hx] at h
        exact Except.noConfusion h
    | ok l1 =>
        rw [hx] at h
        dsimp only at h
        simp only [Except.ok.injEq] at h
        subst h
        obtain ⟨l0, hl0, hle⟩ := hxs l1 hx
        exact ⟨_, by rw [applyArr.eq_def, hk, hl0]; try rfl,
          by simp_all [eraseDiff, eraseCore, Schema.mk.injEq, SchemaCore.mk.injEq]⟩
  case oneOfKey =>
    cases hx : decodeSListPtrV1 js with
    | error e =>
        rw [hx] at h
        exact Except.noConfusion h
    | ok l1 =>
        rw [hx] at h
        dsimp only at h
        simp only [Except.ok.injEq] at h
        subst h
        obtain ⟨l0, hl0, hle⟩ := hxs l1 hx
        exact ⟨_, by rw [applyArr.eq_def, hk, hl0]; try rfl,
          by simp_all [eraseDiff, eraseCore, Schema.mk.injEq, SchemaCore.mk.injEq]⟩
  case allOfKey =>
    cases hx : decodeSListPtrV1 js with
    | error e =>
        rw [hx] at h
        exact Except.noConfusion h
    | ok l1 =>
        rw [hx] at h
        dsimp only at h
        simp only [Except.ok.injEq] at h
        subst h
        obtain ⟨l0, hl0, hle⟩ := hxs l1 hx
        exact ⟨_, by rw [applyArr.eq_def, hk, hl0]; try rfl,
          by simp_all [eraseDiff, eraseCore, Schema.mk.injEq, SchemaCore.mk.injEq]⟩
  case requiredKey =>
    cases hs : strListOfExc js with
    | error e =>
        rw [hs] at h
        exact Except.noConfusion h
    | ok l =>
        rw [hs] at h
        dsimp only at h
        simp only [Except.ok.injEq] at h
        subst h
        exact ⟨_, by rw [applyArr.eq_def, hk, hs]; try rfl,
          by simp_all [eraseDiff, eraseCore, Schema.mk.injEq, SchemaCore.mk.injEq]⟩
  all_goals
    first
      | exact Except.noConfusion h
      | (simp only [Except.ok.injEq] at h; subst h;
         exact ⟨_, by rw [applyArr.eq_def, hk]; try rfl,
           by simp_all [eraseDiff, eraseCore, Schema.mk.injEq,
             SchemaCore.mk.injEq]⟩)

theorem bridgeObjArm (acc1 acc0 : Schema) (k : String) (g : JObj)
    (he : eraseDiff acc1 = eraseDiff acc0)
    (hm : ∀ m1, decodeSMapPtrV1 g = .ok m1 →
       ∃ m0, decodeSMapPtr g = .ok m0 ∧ eraseDiffM m1 = eraseDiffM m0)
    (hmp : ∀ m1, decodeSMapPtrV1 g = .ok m1 →
       ∃ m0, decodeSMapProps g = .ok m0 ∧ eraseDiffM m1 = eraseDiffM m0)
    (hv : ∀ t1, decodeFieldsV1 g emptySchema = .ok t1 →
       ∃ t0, decodeFields g emptySchema = .ok t0 ∧
         eraseDiff t1 = eraseDiff t0)
    (u1 : Schema)
    (h : applyObjV1 acc1 k g (decodeSMapPtrV1 g)
      (decodeFieldsV1 g emptySchema) = .ok u1) :
    ∃ u0, applyObj acc0 k g (decodeSMapPtr g) (decodeSMapProps g)
      (decodeFields g emptySchema) = .ok u0 ∧
      eraseDiff u1 = eraseDiff u0 := by
  rcases acc1 with ⟨c1, d1, df1, ao1, oo1, al1, ps1, aps1, it1⟩
  rcases acc0 with ⟨c0, d0, df0, ao0, oo0, al0, ps0, aps0, it0⟩
  simp only [eraseDiff, Schema.mk.injEq] at he
  obtain ⟨hc, hd, hdf, hao, hoo, hal, hps, hit⟩ := he
  simp only [eraseCore, SchemaCore.mk.injEq] at hc
  simp only [applyObjV1] at h
  cases hk : keyOf k <;> rw [hk] at h <;> dsimp only at h
  case defsKey =>
    cases hx : decodeSMapPtrV1 g with
    | error e =>
        rw [hx] at h
        exact Except.noConfusion h
    | ok m1 =>
        rw [hx] at h
        dsimp only at h
        simp only [Except.ok.injEq] at h
        subst h
        obtain ⟨m0, hm0, hme⟩ := hm m1 hx
        exact ⟨_, by rw [applyObj.eq_def, hk, hm0]; try rfl,
          by simp_all [eraseDiff, eraseCore, Schema.mk.injEq, SchemaCore.mk.injEq]⟩
  case definitionsKey =>
    cases hx : decodeSMapPtrV1 g with
    | error e =>
        rw [hx] at h
        exact Except.noConfusion h
    | ok m1 =>
        rw [hx] at h
        dsimp only at h
        simp only [Except.ok.injEq] at h
        subst h
        obtain ⟨m0, hm0, hme⟩ := hm m1 hx
        exact ⟨_, by rw [applyObj.eq_def, hk, hm0]; try rfl,
          by simp_all [eraseDiff, eraseCore, Schema.mk.injEq, SchemaCore.mk.injEq]⟩
  case propertiesKey =>
    cases hx : decodeSMapPtrV1 g with
    | error e =>
        rw [hx] at h
        exact Except.noConfusion h
    | ok m1 =>
        rw [hx] at h
        dsimp only at h
        simp only [Except.ok.injEq] at h
        subst h
        obtain ⟨m0, hm0, hme⟩ := hmp m1 hx
        exact ⟨_, by rw [applyObj.eq_def, hk, hm0]; try rfl,
          by simp_all [eraseDiff, eraseCore, Schema.mk.injEq, SchemaCore.mk.injEq]⟩
  case itemsKey =>
    cases hx : decodeFieldsV1 g emptySchema with
    | error e =>
        rw [hx] at h
        exact Except.noConfusion h
    | ok t1 =>
        rw [hx] at h
        dsimp only at h
        simp only [Except.ok.injEq] at h
        subst h
        obtain ⟨t0, ht0, hte⟩ := hv t1 hx
        exact ⟨_, by rw [applyObj.eq_def, hk, ht0]; try rfl,
          by simp_all [eraseDiff, eraseCore, Schema.mk.injEq, SchemaCore.mk.injEq, eraseDiffO]⟩
  case apKey =>
    cases hx : decodeFieldsV1 g emptySchema with
    | error e =>
        rw [hx] at h
        dsimp only at h
        simp only [Except.ok.injEq] at h
        subst h
        cases hy : decodeFields g emptySchema with
        | error e0 =>
            exact ⟨_, by rw [applyObj.eq_def, hk],
              by simp_all [eraseDiff, eraseCore, Schema.mk.injEq, SchemaCore.mk.injEq, eraseDiffO]⟩
        | ok t0 =>
            exact ⟨_, by rw [applyObj.eq_def, hk],
              by simp_all [eraseDiff, eraseCore, Schema.mk.injEq, SchemaCore.mk.injEq, eraseDiffO]⟩
    | ok t1 =>
        rw [hx] at h
        dsimp only at h
        simp only [Except.ok.injEq] at h
        subst h
        cases hy : decodeFields g emptySchema with
        | error e0 =>
            exact ⟨_, by rw [applyObj.eq_def, hk],
              by simp_all [eraseDiff, eraseCore, Schema.mk.injEq, SchemaCore.mk.injEq, eraseDiffO]⟩
        | ok t0 =>
            exact ⟨_, by rw [applyObj.eq_def, hk],
              by simp_all [eraseDiff, eraseCore, Schema.mk.injEq, SchemaCore.mk.injEq, eraseDiffO]⟩
  all_goals
    first
      | exact Except.noConfusion h
      | (simp only [Except.ok.injEq] at h; subst h;
         exact ⟨_, by rw [applyObj.eq_def, hk]; try rfl,
           by simp_all [eraseDiff, eraseCore, Schema.mk.injEq,
             SchemaCore.mk.injEq]⟩)

theorem inv_step (k : String) (v : JSON) (tl : JObj)
    (acc1 acc0 u1 u0 : Schema)
    (hnd : tl.hasKey k = false)
    (hty : (JObj.cons k v tl).hasKey "type" = true →
       acc1.typeName = "" ∧ acc0.typeList = [])
    (h1 : applyStepV1 acc1 k v = .ok u1)
    (h0 : applyStep acc0 k v = .ok u0) :
    tl.hasKey "type" = true → u1.typeName = "" ∧ u0.typeList = [] := by
  intro hkey
  by_cases hkk : keyOf k = FieldKey.typeKey
  · have hk' : k = "type" := (keyOf_inv k).2.1 hkk
    rw [hk', hkey] at hnd
    exact Bool.noConfusion hnd
  · obtain ⟨hn, hl⟩ := hty (hasKey_cons_of_tl k v tl "type" hkey)
    obtain ⟨p1, _⟩ := applyStepV1_type acc1 k v u1 h1 hkk
    obtain ⟨_, q2⟩ := applyStep_type acc0 k v u0 h0 hkk
    exact ⟨p1.trans hn, q2.trans hl⟩

theorem hasKey_cons_self (k : String) (v : JSON) (tl : JObj) :
    (JObj.cons k v tl).hasKey k = true := by
  simp only [JObj.hasKey, JObj.lookup]
  cases hres : tl.lookup k
  · simp
  · rfl

mutual
theorem bridgeValue (j : JSON) : noDupJ j = true →
    ∀ s1, decodeValueV1 j = .ok s1 →
    ∃ s0, decodeValue j = .ok s0 ∧ eraseDiff s1 = eraseDiff s0 := by
  cases j with
  | null =>
      intro _ s1 h1
      refine ⟨boolSchema false, rfl, ?_⟩
      have hs : s1 = emptySchema := (Except.ok.inj h1).symm
      rw [hs]
      rfl
  | bool b => exact fun _ s1 h1 => Except.noConfusion h1
  | num n => exact fun _ s1 h1 => Except.noConfusion h1
  | str s => exact fun _ s1 h1 => Except.noConfusion h1
  | arr a => exact fun _ s1 h1 => Except.noConfusion h1
  | obj fs =>
      intro hnd s1 h1
      rw [noDupJ] at hnd
      simp only [Bool.and_eq_true] at hnd
      exact bridgeFields fs hnd.1 hnd.2 emptySchema emptySchema rfl
        (fun _ => ⟨rfl, rfl⟩) s1 h1

theorem bridgeFields (fs : JObj) : noDupKeys fs = true → noDupJO fs = true →
    ∀ acc1 acc0, eraseDiff acc1 = eraseDiff acc0 →
    (fs.hasKey "type" = true → acc1.typeName = "" ∧ acc0.typeList = []) →
    ∀ s1, decodeFieldsV1 fs acc1 = .ok s1 →
    ∃ s0, decodeFields fs acc0 = .ok s0 ∧
      eraseDiff s1 = eraseDiff s0 := by
  cases fs with
  | nil =>
      intro _ _ acc1 acc0 he _ s1 h1
      refine ⟨acc0, rfl, ?_⟩
      have hs : s1 = acc1 := (Except.ok.inj h1).symm
      rw [hs]
      exact he
  | cons k v tl =>
      intro hk ho acc1 acc0 he hty s1 h1
      obtain ⟨hndk, hktl⟩ := noDupKeys_cons hk
      obtain ⟨hvdup, hotl⟩ := noDupJO_cons ho
      rw [decodeFieldsV1_cons, exceptBind_ok] at h1
      obtain ⟨u1, hu1, hrest⟩ := h1
      have hty2 : keyOf k = FieldKey.typeKey →
          acc1.typeName = "" ∧ acc0.typeList = [] := by
        intro hkk
        refine hty ?_
        rw [(keyOf_inv k).2.1 hkk]
        exact hasKey_cons_self "type" v tl
      cases v with
      | null =>
          obtain ⟨u0, hu0, hue⟩ := bridgeNullArm acc1 acc0 k he hty2 u1 hu1
          have hty' := inv_step k .null tl acc1 acc0 u1 u0 hndk hty hu1 hu0
          obtain ⟨s0, hs0, hse⟩ :=
            bridgeFields tl hktl hotl u1 u0 hue hty' s1 hrest
          refine ⟨s0, ?_, hse⟩
          rw [decodeFields_cons]
          exact exceptBind_ok.mpr ⟨u0, hu0, hs0⟩
      | bool b =>
          obtain ⟨u0, hu0, hue⟩ := bridgeBoolArm acc1 acc0 k b he u1 hu1
          have hty' := inv_step k (.bool b) tl acc1 acc0 u1 u0 hndk hty hu1
            hu0
          obtain ⟨s0, hs0, hse⟩ :=
            bridgeFields tl hktl hotl u1 u0 hue hty' s1 hrest
          refine ⟨s0, ?_, hse⟩
          rw [decodeFields_cons]
          exact exceptBind_ok.mpr ⟨u0, hu0, hs0⟩
      | num n =>
          obtain ⟨u0, hu0, hue⟩ := bridgeNumArm acc1 acc0 k n he u1 hu1
          have hty' := inv_step k (.num n) tl acc1 acc0 u1 u0 hndk hty hu1
            hu0
          obtain ⟨s0, hs0, hse⟩ :=
            bridgeFields tl hktl hotl u1 u0 hue hty' s1 hrest
          refine ⟨s0, ?_, hse⟩
          rw [decodeFields_cons]
          exact exceptBind_ok.mpr ⟨u0, hu0, hs0⟩
      | str sv =>
          obtain ⟨u0, hu0, hue⟩ := bridgeStrArm acc1 acc0 k sv he hty2 u1 hu1
          have hty' := inv_step k (.str sv) tl acc1 acc0 u1 u0 hndk hty hu1
            hu0
          obtain ⟨s0, hs0, hse⟩ :=
            bridgeFields tl hktl hotl u1 u0 hue hty' s1 hrest
          refine ⟨s0, ?_, hse⟩
          rw [decodeFields_cons]
          exact exceptBind_ok.mpr ⟨u0, hu0, hs0⟩
      | arr js =>
          obtain ⟨u0, hu0, hue⟩ := bridgeArrArm acc1 acc0 k js he
            (fun l1 hl1 => bridgeList js hvdup l1 hl1) u1 hu1
          have hty' := inv_step k (.arr js) tl acc1 acc0 u1 u0 hndk hty hu1
            hu0
          obtain ⟨s0, hs0, hse⟩ :=
            bridgeFields tl hktl hotl u1 u0 hue hty' s1 hrest
          refine ⟨s0, ?_, hse⟩
          rw [decodeFields_cons]
          exact exceptBind_ok.mpr ⟨u0, hu0, hs0⟩
      | obj g =>
          have hg := hvdup
          rw [noDupJ] at hg
          simp only [Bool.and_eq_true] at hg
          obtain ⟨u0, hu0, hue⟩ := bridgeObjArm acc1 acc0 k g he
            (fun m1 hm1 => bridgeMapPtr g hg.2 m1 hm1)
            (fun m1 hm1 => bridgeMapProps g hg.2 m1 hm1)
            (fun t1 ht1 => bridgeFields g hg.1 hg.2 emptySchema emptySchema
              rfl (fun _ => ⟨rfl, rfl⟩) t1 ht1)
            u1 hu1
          have hty' := inv_step k (.obj g) tl acc1 acc0 u1 u0 hndk hty hu1
            hu0
          obtain ⟨s0, hs0, hse⟩ :=
            bridgeFields tl hktl hotl u1 u0 hue hty' s1 hrest
          refine ⟨s0, ?_, hse⟩
          rw [decodeFields_cons]
          exact exceptBind_ok.mpr ⟨u0, hu0, hs0⟩

theorem bridgeList (js : JArr) : noDupJA js = true →
    ∀ l1, decodeSListPtrV1 js = .ok l1 →
    ∃ l0, decodeSListPtr js = .ok l0 ∧ eraseDiffL l1 = eraseDiffL l0 := by
  cases js with
  | nil =>
      intro _ l1 h1
      refine ⟨.nil, rfl, ?_⟩
      rw [← Except.ok.inj h1]
  | cons v tl =>
      intro h l1 h1
      obtain ⟨hv, htl⟩ := noDupJA_cons h
      cases v with
      | bool b => exact Except.noConfusion h1
      | num n => exact Except.noConfusion h1
      | str s => exact Except.noConfusion h1
      | arr a => exact Except.noConfusion h1
      | null =>
          have h2 : (decodeSListPtrV1 tl >>= fun r =>
              Except.ok (SList.cons emptySchema r)) = .ok l1 := h1
          rw [exceptBind_ok] at h2
          obtain ⟨r1, hr1, hok⟩ := h2
          obtain ⟨l0, hl0, hle⟩ := bridgeList tl htl r1 hr1
          have hl : l1 = .cons emptySchema r1 := (Except.ok.inj hok).symm
          subst hl
          refine ⟨.cons emptySchema l0, ?_, ?_⟩
          · show (decodeSListPtr tl >>= fun r =>
              Except.ok (SList.cons emptySchema r)) = _
            rw [hl0]
            rfl
          · simp only [eraseDiffL, hle]
      | obj g =>
          have h2 : (decodeFieldsV1 g emptySchema >>= fun s =>
              decodeSListPtrV1 tl >>= fun r =>
              Except.ok (SList.cons s r)) = .ok l1 := h1
          rw [exceptBind_ok] at h2
          obtain ⟨t1, ht1, h3⟩ := h2
          rw [exceptBind_ok] at h3
          obtain ⟨r1, hr1, hok⟩ := h3
          have hgg := hv
          rw [noDupJ] at hgg
          simp only [Bool.and_eq_true] at hgg
          obtain ⟨t0, ht0, hte⟩ := bridgeFields g hgg.1 hgg.2 emptySchema
            emptySchema rfl (fun _ => ⟨rfl, rfl⟩) t1 ht1
          obtain ⟨l0, hl0, hle⟩ := bridgeList tl htl r1 hr1
          have hl : l1 = .cons t1 r1 := (Except.ok.inj hok).symm
          subst hl
          refine ⟨.cons t0 l0, ?_, ?_⟩
          · show (decodeFields g emptySchema >>= fun s =>
              decodeSListPtr tl >>= fun r =>
              Except.ok (SList.cons s r)) = _
            rw [ht0, hl0]
            rfl
          · simp only [eraseDiffL, hte, hle]

theorem bridgeMapPtr (g : JObj) : noDupJO g = true →
    ∀ m1, decodeSMapPtrV1 g = .ok m1 →
    ∃ m0, decodeSMapPtr g = .ok m0 ∧ eraseDiffM m1 = eraseDiffM m0 := by
  cases g with
  | nil =>
      intro _ m1 h1
      refine ⟨.nil, rfl, ?_⟩
      rw [← Except.ok.inj h1]
  | cons k v tl =>
      intro h m1 h1
      obtain ⟨hv, htl⟩ := noDupJO_cons h
      cases v with
      | bool b => exact Except.noConfusion h1
      | num n => exact Except.noConfusion h1
      | str s => exact Except.noConfusion h1
      | arr a => exact Except.noConfusion h1
      | null =>
          have h2 : (decodeSMapPtrV1 tl >>= fun r =>
              Except.ok (SMap.cons k emptySchema r)) = .ok m1 := h1
          rw [exceptBind_ok] at h2
          obtain ⟨r1, hr1, hok⟩ := h2
          obtain ⟨m0, hm0, hme⟩ := bridgeMapPtr tl htl r1 hr1
          have hm : m1 = .cons k emptySchema r1 := (Except.ok.inj hok).symm
          subst hm
          refine ⟨.cons k emptySchema m0, ?_, ?_⟩
          · show (decodeSMapPtr tl >>= fun r =>
              Except.ok (SMap.cons k emptySchema r)) = _
            rw [hm0]
            rfl
          · simp only [eraseDiffM, hme]
      | obj f =>
          have h2 : (decodeFieldsV1 f emptySchema >>= fun s =>
              decodeSMapPtrV1 tl >>= fun r =>
              Except.ok (SMap.cons k s r)) = .ok m1 := h1
          rw [exceptBind_ok] at h2
          obtain ⟨t1, ht1, h3⟩ := h2
          rw [exceptBind_ok] at h3
          obtain ⟨r1, hr1, hok⟩ := h3
          have hgg := hv
          rw [noDupJ] at hgg
          simp only [Bool.and_eq_true] at hgg
          obtain ⟨t0, ht0, hte⟩ := bridgeFields f hgg.1 hgg.2 emptySchema
            emptySchema rfl (fun _ => ⟨rfl, rfl⟩) t1 ht1
          obtain ⟨m0, hm0, hme⟩ := bridgeMapPtr tl htl r1 hr1
          have hm : m1 = .cons k t1 r1 := (Except.ok.inj hok).symm
          subst hm
          refine ⟨.cons k t0 m0, ?_, ?_⟩
          · show (decodeFields f emptySchema >>= fun s =>
              decodeSMapPtr tl >>= fun r =>
              Except.ok (SMap.cons k s r)) = _
            rw [ht0, hm0]
            rfl
          · simp only [eraseDiffM, hte, hme]

theorem bridgeMapProps (g : JObj) : noDupJO g = true →
    ∀ m1, decodeSMapPtrV1 g = .ok m1 →
    ∃ m0, decodeSMapProps g = .ok m0 ∧ eraseDiffM m1 = eraseDiffM m0 := by
  cases g with
  | nil =>
      intro _ m1 h1
      refine ⟨.nil, rfl, ?_⟩
      rw [← Except.ok.inj h1]
  | cons k v tl =>
      intro h m1 h1
      obtain ⟨hv, htl⟩ := noDupJO_cons h
      cases v with
      | bool b => exact Except.noConfusion h1
      | num n => exact Except.noConfusion h1
      | str s => exact Except.noConfusion h1
      | arr a => exact Except.noConfusion h1
      | null =>
          have h2 : (decodeSMapPtrV1 tl >>= fun r =>
              Except.ok (SMap.cons k emptySchema r)) = .ok m1 := h1
          rw [exceptBind_ok] at h2
          obtain ⟨r1, hr1, hok⟩ := h2
          obtain ⟨m0, hm0, hme⟩ := bridgeMapProps tl htl r1 hr1
          have hm : m1 = .cons k emptySchema r1 := (Except.ok.inj hok).symm
          subst hm
          refine ⟨.cons k (boolSchema false) m0, ?_, ?_⟩
          · show (decodeSMapProps tl >>= fun r =>
              Except.ok (SMap.cons k (boolSchema false) r)) = _
            rw [hm0]
            rfl
          · simp only [eraseDiffM, hme]
            try rfl
      | obj f =>
          have h2 : (decodeFieldsV1 f emptySchema >>= fun s =>
              decodeSMapPtrV1 tl >>= fun r =>
              Except.ok (SMap.cons k s r)) = .ok m1 := h1
          rw [exceptBind_ok] at h2
          obtain ⟨t1, ht1, h3⟩ := h2
          rw [exceptBind_ok] at h3
          obtain ⟨r1, hr1, hok⟩ := h3
          have hgg := hv
          rw [noDupJ] at hgg
          simp only [Bool.and_eq_true] at hgg
          obtain ⟨t0, ht0, hte⟩ := bridgeFields f hgg.1 hgg.2 emptySchema
            emptySchema rfl (fun _ => ⟨rfl, rfl⟩) t1 ht1
          obtain ⟨m0, hm0, hme⟩ := bridgeMapProps tl htl r1 hr1
          have hm : m1 = .cons k t1 r1 := (Except.ok.inj hok).symm
          subst hm
          refine ⟨.cons k t0 m0, ?_, ?_⟩
          · show (decodeFields f emptySchema >>= fun s =>
              decodeSMapProps tl >>= fun r =>
              Except.ok (SMap.cons k s r)) = _
            rw [ht0, hm0]
            rfl
          · simp only [eraseDiffM, hte, hme]
end

/-- C10 counterexample: the two decoders do not succeed on the same inputs.
The JSON document `true` is rejected by the older decoder (no
boolean-schema branch) and accepted by the current one. -/
theorem c10_counterexample :
    decodeValueV1 (.bool true) =
      .error "json: cannot unmarshal bool into Schema" ∧
    decodeValue (.bool true) = .ok (boolSchema true) := ⟨rfl, rfl⟩

/-- C10 amended: on duplicate-free documents, whenever the older decoder
succeeds the current decoder also succeeds, and the two results agree on
every shared field (everything except the `additionalProperties` pair and
the boolean-schema markers, which `eraseDiff` projects away). -/
theorem c10_decoders_agree (j : JSON) (hnd : noDupJ j = true)
    (s1 : Schema) (h1 : decodeValueV1 j = .ok s1) :
    ∃ s0, decodeValue j = .ok s0 ∧ eraseDiff s1 = eraseDiff s0 :=
  bridgeValue j hnd s1 h1

theorem c10_witness :
    ∃ s0, decodeValue (.obj (.cons "type" (.str "object") .nil)) = .ok s0 ∧
      eraseDiff (Schema.mk { typeName := "object" } .nil .nil .nil .nil .nil
        .nil .none .none) = eraseDiff s0 :=
  c10_decoders_agree (.obj (.cons "type" (.str "object") .nil)) rfl
    (Schema.mk { typeName := "object" } .nil .nil .nil .nil .nil .nil .none
      .none) rfl
